import Mathlib

/-!
Verification development for the `pdt-cdp-ports` repository
(`ap_renamer.py`, `ap_renamer1.py`, `lldp_renamer.py`).

The Python sources are shallowly embedded below.  Strings are modelled as
`String`/`List Char`; the ASCII behaviour of Python's `str.strip`,
`str.lower`, `\d`, `\s` is modelled exactly (the inputs in scope are ASCII).
Regular expressions used by the sources are small and are translated into
explicit scanning functions with the same leftmost/greedy semantics.
Interactive prompts are modelled as predetermined per-prompt answers, the
remote device as an oracle giving each command's outcome, and every
side effect (print, command, disconnect) as an event in a trace.
-/

/-! ## Basic character/string helpers (Python semantics, ASCII scope) -/

/-- The whitespace characters recognised by Python's `str.strip` / `\s`
(ASCII scope). -/
def pyIsSpace (c : Char) : Bool :=
  c = ' ' || c = '\t' || c = '\n' || c = '\r' || c = '\x0b' || c = '\x0c'

/-- The ten ASCII decimal digits; Python's `\d` on the ASCII inputs in scope. -/
def digitChars : List Char := ['0', '1', '2', '3', '4', '5', '6', '7', '8', '9']

def isDigitC (c : Char) : Bool := decide (c ∈ digitChars)

/-- Drop trailing elements satisfying `p`. -/
def dropTrailing (p : Char → Bool) (l : List Char) : List Char :=
  (l.reverse.dropWhile p).reverse

/-- Python `str.strip()` on a character list. -/
def stripL (l : List Char) : List Char :=
  dropTrailing pyIsSpace (l.dropWhile pyIsSpace)

/-- Python `str.rstrip()` on a character list. -/
def rstripL (l : List Char) : List Char := dropTrailing pyIsSpace l

/-- Python `str.lower()` on a character list (ASCII scope). -/
def lowerL (l : List Char) : List Char := l.map Char.toLower

def strOfL (l : List Char) : String := l.asString

def pyStripS (s : String) : String := strOfL (stripL s.toList)

def pyRstripS (s : String) : String := strOfL (rstripL s.toList)

def pyLowerS (s : String) : String := strOfL (lowerL s.toList)

/-- `beginsWith p l` is true iff `p` is a prefix of `l` (Python `startswith`). -/
def beginsWith : List Char → List Char → Bool
  | [], _ => true
  | _ :: _, [] => false
  | p :: ps, c :: cs => if p = c then beginsWith ps cs else false

/-- `containsSub p l` is true iff `p` occurs as a contiguous substring of `l`
(Python `p in l`). -/
def containsSub (p : List Char) : List Char → Bool
  | [] => beginsWith p []
  | c :: cs => beginsWith p (c :: cs) || containsSub p cs

def strBegins (p s : String) : Bool := beginsWith p.toList s.toList

/-- Python-style lexicographic `<=` on strings (by code point). -/
def strLeL : List Char → List Char → Bool
  | [], _ => true
  | _ :: _, [] => false
  | a :: as, b :: bs => if a = b then strLeL as bs else decide (a < b)

/-- Split a character list at every occurrence of character `c`. -/
def splitCharL (c : Char) : List Char → List (List Char)
  | [] => [[]]
  | x :: xs =>
    let r := splitCharL c xs
    if x = c then [] :: r
    else
      match r with
      | h :: t => (x :: h) :: t
      | [] => [[x]]

/-- Python `str.splitlines()` for texts whose line breaks are `'\n'`
(the only break present in the outputs in scope): no trailing empty line. -/
def splitLines (s : String) : List String :=
  if s = "" then []
  else
    let parts := (splitCharL '\n' s.toList).map strOfL
    match parts.getLast? with
    | some "" => parts.dropLast
    | _ => parts

/-- Split off the text before the first occurrence of `sep` (`none` when `sep`
does not occur); the second component is the text after that occurrence. -/
def breakOnSub (sep : List Char) : List Char → Option (List Char × List Char)
  | [] => if sep = [] then some ([], []) else none
  | c :: cs =>
    if beginsWith sep (c :: cs) then some ([], (c :: cs).drop sep.length)
    else
      match breakOnSub sep cs with
      | some (a, b) => some (c :: a, b)
      | none => none

def splitOnSubL (sep : List Char) : Nat → List Char → List (List Char)
  | 0, l => [l]
  | f + 1, l =>
    match breakOnSub sep l with
    | none => [l]
    | some (a, b) => a :: splitOnSubL sep f b

/-- Python `str.split(sep)` for a non-empty separator. -/
def splitOnSub (s sep : String) : List String :=
  (splitOnSubL sep.toList (s.toList.length + 1) s.toList).map strOfL

/-- Association-list lookup; the first entry with the key wins
(Python dict lookup under in-place overwriting insertion). -/
def alookup {β : Type} : List (String × β) → String → Option β
  | [], _ => none
  | (a, b) :: rest, k => if a = k then some b else alookup rest k

/-- Python `dict` assignment `m[k] = v`: overwrite in place, else append. -/
def dictInsert {β : Type} : List (String × β) → String → β → List (String × β)
  | [], k, v => [(k, v)]
  | (a, b) :: rest, k, v =>
    if a = k then (a, v) :: rest else (a, b) :: dictInsert rest k v

/-! ## `normalize_interface_name` (ap_renamer.py, lines 31-56) -/

/-- Maximal leading digit run (the greedy `\d+`). -/
def takeDigits : List Char → List Char × List Char
  | [] => ([], [])
  | c :: cs =>
    if isDigitC c then
      let p := takeDigits cs
      (c :: p.1, p.2)
    else ([], c :: cs)

/-- Greedy `(?:/\d+)*` after the leading digit run; the fuel is decreased on
every step and `length` fuel always suffices. -/
def slotTailF : Nat → List Char → List Char × List Char
  | 0, l => ([], l)
  | f + 1, l =>
    match l with
    | c :: rest =>
      if c = '/' then
        (match takeDigits rest with
         | ([], _) => ([], c :: rest)
         | (d :: ds, r) =>
           let p := slotTailF f r
           (c :: d :: (ds ++ p.1), p.2))
      else ([], c :: rest)
    | [] => ([], l)

/-- `re.search(r'(\d+(?:/\d+)*)', ·)`: the leftmost, greedy match. -/
def searchDigitRun : List Char → Option (List Char)
  | [] => none
  | c :: cs =>
    if isDigitC c then
      let p := takeDigits (c :: cs)
      some (p.1 ++ (slotTailF p.2.length p.2).1)
    else searchDigitRun cs

/-- `normalize_interface_name` from ap_renamer.py: trim, extract the first
slash-delimited digit run, classify the prefix on the lower-cased token. -/
def normalize_interface_name (ifname : String) : String :=
  if ifname = "" then ifname
  else
    let t := stripL ifname.toList
    match searchDigitRun t with
    | none => strOfL t
    | some nums =>
      let low := lowerL t
      if containsSub "gig".toList low || beginsWith "gi".toList low then
        strOfL ("GigabitEthernet".toList ++ nums)
      else if containsSub "ten".toList low || beginsWith "te".toList low then
        strOfL ("TenGigabitEthernet".toList ++ nums)
      else if containsSub "fast".toList low || beginsWith "fa".toList low then
        strOfL ("FastEthernet".toList ++ nums)
      else strOfL t

/-- The normalization algorithm as worded by the spec (§4.1): trim whitespace,
extract the first slash-delimited digit run as the slot path (fail-soft when
none exists), lower-case for classification, and apply the prefix precedence
gig/gi → GigabitEthernet, ten/te → TenGigabitEthernet, fast/fa →
FastEthernet, else return the trimmed original. -/
def normalizeSpec (s : String) : String :=
  let t := stripL s.toList
  match searchDigitRun t with
  | none => strOfL t
  | some nums =>
    let low := lowerL t
    if containsSub "gig".toList low || beginsWith "gi".toList low then
      strOfL ("GigabitEthernet".toList ++ nums)
    else if containsSub "ten".toList low || beginsWith "te".toList low then
      strOfL ("TenGigabitEthernet".toList ++ nums)
    else if containsSub "fast".toList low || beginsWith "fa".toList low then
      strOfL ("FastEthernet".toList ++ nums)
    else strOfL t

/-! ## `find_aps_in_cdp` (ap_renamer.py, lines 8-28) -/

/-- Try the device pattern `(C91[^\s]*|AIR-[^\s]+)` (case-insensitive) at the
start of `l`; alternation prefers the `C91` branch. -/
def devPatAt (l : List Char) : Option (List Char) :=
  if beginsWith "c91".toList (lowerL l) then
    some (l.take 3 ++ (l.drop 3).takeWhile (fun c => !pyIsSpace c))
  else if beginsWith "air-".toList (lowerL l) then
    match (l.drop 4).takeWhile (fun c => !pyIsSpace c) with
    | [] => none
    | tail => some (l.take 4 ++ tail)
  else none

/-- `re.search` with the device pattern: leftmost position wins. -/
def devPatSearch : List Char → Option (List Char)
  | [] => none
  | c :: cs =>
    match devPatAt (c :: cs) with
    | some m => some m
    | none => devPatSearch cs

/-- The interface pattern `^\s*(\S+)`: first whitespace-delimited token. -/
def firstTokenL (l : List Char) : Option (List Char) :=
  match (l.dropWhile pyIsSpace).takeWhile (fun c => !pyIsSpace c) with
  | [] => none
  | t => some t

/-- `find_aps_in_cdp`: scan `show power inline` output line by line for the
device pattern; for a hit, the interface is the first token of the same line
(`<unknown>` when absent), normalized; results are appended in line order. -/
def find_aps_in_cdp (output : String) : List (String × String) :=
  (splitLines output).foldl
    (fun acc line =>
      match devPatSearch line.toList with
      | none => acc
      | some d =>
        let device := strOfL (stripL d)
        let ifname :=
          match firstTokenL line.toList with
          | some t => strOfL t
          | none => "<unknown>"
        acc ++ [(device, normalize_interface_name ifname)]) []

/-! ## `parse_cdp_neighbors_detail` (ap_renamer.py, lines 59-83) -/

/-- `re.match(r'^\s*Device ID:\s*(.+)', line, re.IGNORECASE)` followed by
`.group(1).strip()`: matches iff something follows the label, and the
captured-and-stripped value is the stripped remainder. -/
def deviceLineVal (line : String) : Option String :=
  let r := line.toList.dropWhile pyIsSpace
  if beginsWith (lowerL "Device ID:".toList) (lowerL r) then
    let rem := r.drop 10
    if rem = [] then none else some (strOfL (stripL rem))
  else none

/-- `re.match(r'^\s*Interface:\s*([^,]+),', line, re.IGNORECASE)` followed by
`.group(1).strip()`: matches iff a comma occurs after at least one
non-comma character, capturing up to the first comma. -/
def interfaceLineVal (line : String) : Option String :=
  let r := line.toList.dropWhile pyIsSpace
  if beginsWith (lowerL "Interface:".toList) (lowerL r) then
    let rem := r.drop 10
    let seg := rem.takeWhile (fun c => c ≠ ',')
    if seg = [] then none
    else if seg.length = rem.length then none
    else some (strOfL (stripL seg))
  else none

/-- One step of the detail-parser loop: dict of results plus the single
`current_device` register (a captured empty value is falsy in Python and
disables the interface branch). -/
def cdpStepDict (acc : List (String × String) × Option String) (line : String) :
    List (String × String) × Option String :=
  match deviceLineVal line with
  | some d => (acc.1, some d)
  | none =>
    match acc.2 with
    | some c =>
      if c ≠ "" then
        match interfaceLineVal line with
        | some iv => (dictInsert acc.1 (normalize_interface_name iv) c, none)
        | none => (acc.1, acc.2)
      else (acc.1, acc.2)
    | none => (acc.1, acc.2)

/-- `parse_cdp_neighbors_detail`: fold the register machine over the lines,
returning the interface → device-id dict. -/
def parse_cdp_neighbors_detail (output : String) : List (String × String) :=
  ((splitLines output).foldl cdpStepDict ([], none)).1

/-- The same scan as an ordered list of emitted `(interface, device)` entries:
the single-register state machine of the spec (§4.2), whose emissions are
then subject to last-write-wins. -/
def cdpScan : List String → Option String → List (String × String)
  | [], _ => []
  | line :: rest, cur =>
    match deviceLineVal line with
    | some d => cdpScan rest (some d)
    | none =>
      match cur with
      | some c =>
        if c ≠ "" then
          match interfaceLineVal line with
          | some iv => (normalize_interface_name iv, c) :: cdpScan rest none
          | none => cdpScan rest cur
        else cdpScan rest cur
      | none => cdpScan rest cur

/-- Last-write-wins reading of an emission list: the value of the last entry
for the key, if any. -/
def lastVal : List (String × String) → String → Option String
  | [], _ => none
  | (a, b) :: rest, k =>
    match lastVal rest k with
    | some w => some w
    | none => if a = k then some b else none

/-! ## `parse_lldp_neighbors` (lldp_renamer.py, lines 12-51) -/

structure NeighborRecord where
  local_intf : String
  system_name : String
  system_description : String
deriving Repr, DecidableEq

/-- `t.split(label)[1].strip()` for a line `t` that starts with `label`:
the text between the first and second occurrence of `label`, stripped. -/
def segUntil (pat : List Char) : List Char → List Char
  | [] => []
  | c :: cs => if beginsWith pat (c :: cs) then [] else c :: segUntil pat cs

def valueAfter (t : String) (label : String) : String :=
  strOfL (stripL (segUntil label.toList (t.toList.drop label.toList.length)))

/-- The first non-empty stripped line, if any (the look-ahead after a
`System Description:` label line). -/
def firstNonEmptyStrip : List String → Option String
  | [] => none
  | l :: rest =>
    let t := pyStripS l
    if t ≠ "" then some t else firstNonEmptyStrip rest

/-- The per-block scanning loop of `parse_lldp_neighbors`: state is
`(local_intf register, system_name, system_description)`. -/
def lldpScan : List String → Option String → String → String →
    Option String × String × String
  | [], li, sn, sd => (li, sn, sd)
  | l :: rest, li, sn, sd =>
    let t := pyStripS l
    if strBegins "Local Intf:" t then
      lldpScan rest (some (valueAfter t "Local Intf:")) sn sd
    else if strBegins "System Name:" t then
      lldpScan rest li (valueAfter t "System Name:") sd
    else if strBegins "System Description:" t then
      match firstNonEmptyStrip rest with
      | some d => lldpScan rest li sn d
      | none => lldpScan rest li sn sd
    else lldpScan rest li sn sd

/-- The lines of one block: `[l.rstrip() for l in block.splitlines()]`. -/
def blockLines (b : String) : List String := (splitLines b).map pyRstripS

/-- One block yields a record iff the final `local_intf` register is truthy. -/
def parseBlock (b : String) : Option NeighborRecord :=
  match lldpScan (blockLines b) none "" "" with
  | (some li, sn, sd) => if li ≠ "" then some ⟨li, sn, sd⟩ else none
  | (none, _, _) => none

/-- The 48-dash block separator of `lldp_renamer.py`. -/
def sep48 : String := "------------------------------------------------"

def parse_lldp_neighbors (output : String) : List NeighborRecord :=
  (splitOnSub output sep48).filterMap parseBlock

/-- Spec-side reading of "a `Local Intf:` field was found in that block". -/
def hasLocalIntfLabel (b : String) : Bool :=
  (blockLines b).any (fun l => strBegins "Local Intf:" (pyStripS l))

/-! ## Device policies and the policy matcher (lldp_renamer.py, lines 58-138) -/

structure DevicePolicy where
  name : String
  matchFn : NeighborRecord → Bool
  config : List String

/-- `DEVICE_POLICIES` from lldp_renamer.py. -/
def DEVICE_POLICIES : List DevicePolicy :=
  [⟨"Arista Leaf Switch",
    fun n => decide (n.system_name = "LEAF1"),
    ["description config tool LEAF1",
     "switchport mode access",
     "switchport access vlan 1",
     "spanning-tree portfast",
     "spanning-tree bpduguard enable"]⟩,
   ⟨"Arista Access Point",
    fun n => containsSub "ARISTA AP".toList n.system_description.toList,
    ["description Arista_AP_Config_tool",
     "switchport trunk allowed vlan 1,4091",
     "switchport mode trunk",
     "power inline auto",
     "spanning-tree portfast trunk",
     "spanning-tree bpduguard enable"]⟩]

/-- The policy loop of `main`: first policy whose predicate is true, else none
(the loop `break`s at the first match). -/
def matchPolicy (n : NeighborRecord) : List DevicePolicy → Option DevicePolicy
  | [] => none
  | p :: rest => if p.matchFn n then some p else matchPolicy n rest

/-- The commands extended for one neighbor in `main`. -/
def neighborCmds (n : NeighborRecord) (ps : List DevicePolicy) : List String :=
  match matchPolicy n ps with
  | some p => ("interface " ++ n.local_intf) :: p.config ++ ["exit"]
  | none => []

/-! ## Plan builder and apply loop (ap_renamer.py, `main`, lines 137-313) -/

/-- Stable insertion into a `<=`-sorted list of strings. -/
def insertSorted (x : String) : List String → List String
  | [] => [x]
  | y :: ys => if strLeL x.toList y.toList then x :: y :: ys else y :: insertSorted x ys

/-- Python `sorted` on (distinct) string keys. -/
def sortKeys (l : List String) : List String := l.foldr insertSorted []

/-- `interfaces.setdefault(intf, []).append(dev)`: append to the entry of the
key, keeping first-insertion order, creating the entry at the end if new. -/
def appendAt : List (String × List String) → String → String → List (String × List String)
  | [], k, d => [(k, [d])]
  | (a, ds) :: rest, k, d =>
    if a = k then (a, ds ++ [d]) :: rest else (a, ds) :: appendAt rest k d

/-- Group the `(device, interface)` pairs by interface (lines 151-153). -/
def groupPairs (aps : List (String × String)) : List (String × List String) :=
  aps.foldl (fun m p => appendAt m p.2 p.1) []

/-- `cdp_map.get(intf) or (interfaces.get(intf, [None])[0])`, then the
truthiness test `if desc:` — Python `or` falls through on an empty string. -/
def descFor (cdp : List (String × String)) (interfaces : List (String × List String))
    (intf : String) : Option String :=
  let fb : Option String := (alookup interfaces intf).bind List.head?
  let raw : Option String :=
    match alookup cdp intf with
    | some s => if s = "" then fb else some s
    | none => fb
  match raw with
  | some s => if s = "" then none else some s
  | none => none

/-- The command batch built for one interface (lines 290-299):
optional `default interface`, `interface`, optional `description`, then the
user-supplied lines. -/
def buildCfg (interfaces : List (String × List String)) (cdp : List (String × String))
    (tdef tdesc : Bool) (lines : List String) (intf : String) : List String :=
  (if tdef then ["default interface " ++ intf] else []) ++
  ["interface " ++ intf] ++
  (if tdesc then
    (match descFor cdp interfaces intf with
     | some d => ["description " ++ d]
     | none => []) else []) ++
  lines

/-- The rendered dry-run preview (lines 257-271), as the list of printed
lines, iterating interfaces in sorted order and skipping the sentinel. -/
def previewPrints (interfaces : List (String × List String)) (cdp : List (String × String))
    (tdef tdesc : Bool) (lines : List String) : List String :=
  "\nPlanned changes for each interface:" ::
  ((sortKeys (interfaces.map Prod.fst)).map (fun intf =>
    if intf = "<unknown>" then ["  Skipping unknown interface"]
    else
      (if tdef then ["  default interface " ++ intf] else []) ++
      ["  interface " ++ intf] ++
      (if tdesc then
        (match descFor cdp interfaces intf with
         | some d => ["    description " ++ d]
         | none => []) else []) ++
      lines.map (fun l => "    " ++ l))).flatten

/-! ## Session orchestrator model (ap_renamer.py, `main`) -/

/-- Observable effects of one device iteration. -/
inductive Ev where
  | print (s : String)
  | connect (host user pass : String) (ok : Bool)
  | sendCommand (cmd : String) (ok : Bool)
  | configSet (cmds : List String) (ok : Bool)
  | disconnect
deriving Repr, DecidableEq

structure Creds where
  username : String
  password : String
deriving Repr, DecidableEq

/-- The loop-carried state of `main`: previously saved configuration lines
and toggles, and the stored credentials. -/
structure SessionState where
  prev_user_lines : Option (List String)
  prev_do_default : Option Bool
  prev_do_desc : Option Bool
  credentials : Option Creds
deriving Repr, DecidableEq

/-- Predetermined answers for the interactive prompts of one iteration
(each prompt site reads its own answer; prompts not reached are unused). -/
structure Answers where
  useCreds : String
  entered : Creds
  proceed : String
  reuseCfg : String
  descChoice : String
  cfgInput : List String
  defaultChoice : String
  saveCfg : String
  confirm : String
  again : String
deriving Repr, DecidableEq

/-- Oracle for the remote device session: whether connecting succeeds, the
discovery outputs (`none` models a raised exception), and per-batch
success of `send_config_set`. -/
structure Device where
  connOk : Bool
  connErrNetmiko : Bool
  connErrMsg : String
  powerResult : Option String
  cdpResult : Option String
  configOk : List String → Bool
  cmdErrMsg : String

/-- `input(...).strip().lower()` applied to a prompt answer. -/
def ynAns (s : String) : String := pyLowerS (pyStripS s)

/-- The apply-loop body for one interface (lines 283-306): skip the sentinel,
otherwise send the batch; an error is caught, reported, and the loop
continues. -/
def applyOne (interfaces : List (String × List String)) (cdp : List (String × String))
    (tdef tdesc : Bool) (lines : List String) (dev : Device) (intf : String) : List Ev :=
  if intf = "<unknown>" then [Ev.print "Skipping unknown interface"]
  else
    let cfg := buildCfg interfaces cdp tdef tdesc lines intf
    let ok := dev.configOk cfg
    [Ev.print ("\nApplying changes to " ++ intf ++ "..."), Ev.configSet cfg ok] ++
    (if ok then [Ev.print ("Applied " ++ toString lines.length ++ " config lines to " ++ intf)]
     else [Ev.print ("Error configuring " ++ intf ++ ": " ++ dev.cmdErrMsg)])

/-- The whole apply loop, in sorted interface order. -/
def applyPhase (interfaces : List (String × List String)) (cdp : List (String × String))
    (tdef tdesc : Bool) (lines : List String) (dev : Device) : List Ev :=
  ((sortKeys (interfaces.map Prod.fst)).map
    (applyOne interfaces cdp tdef tdesc lines dev)).flatten

/-- Reading the free-form configuration lines (lines 194-202): stop at a line
stripping to `"."` (or end of input), `rstrip` each kept line. -/
def collectLines : List String → List String
  | [] => []
  | l :: rest => if pyStripS l = "." then [] else pyRstripS l :: collectLines rest

/-- Result of the configuration-entry phase. -/
inductive CfgOut where
  | exit (tr : List Ev)
  | go (tr : List Ev) (lines : List String) (dDefV : Option Bool) (dDesc : Bool)

/-- Fresh entry of configuration lines (lines 188-216 / 219-247): description
choice, line entry, the empty-lines short-circuit, default choice. -/
def freshEntry (ans : Answers) : CfgOut :=
  let dDesc := ynAns ans.descChoice ≠ "n"
  let pr0 := [Ev.print "Enter the configuration lines to apply to each interface.",
              Ev.print "End input with a single period '.' on a line by itself."]
  let lines := collectLines ans.cfgInput
  if lines = [] then
    if dDesc then
      CfgOut.go (pr0 ++ [Ev.print "No configuration lines provided; will apply CDP description(s) only."])
        [] (some (ynAns ans.defaultChoice = "y")) dDesc
    else
      CfgOut.exit (pr0 ++ [Ev.print "No configuration lines provided; nothing to do.", Ev.disconnect])
  else CfgOut.go pr0 lines (some (ynAns ans.defaultChoice = "y")) dDesc

/-- Choose between reusing the previous configuration lines and fresh entry
(lines 179-247); on reuse, `do_default` keeps the stored optional value and
`do_desc` defaults to `False` when never stored. -/
def configPhase (st : SessionState) (ans : Answers) : CfgOut :=
  match st.prev_user_lines with
  | some pl =>
    if ynAns ans.reuseCfg ≠ "n" then
      CfgOut.go [] pl st.prev_do_default (st.prev_do_desc.getD false)
    else freshEntry ans
  | none => freshEntry ans

/-- How the `try` body of one device iteration ends. -/
inductive BodyExit where
  | earlyAsk
  | fallth
  | crashed
deriving Repr, DecidableEq

/-- Save-for-reuse, preview, confirmation and apply (lines 249-308). -/
def afterCfg (st : SessionState) (ans : Answers) (dev : Device)
    (interfaces : List (String × List String)) (cdp : List (String × String))
    (lines : List String) (dDefV : Option Bool) (dDesc : Bool) :
    List Ev × SessionState × BodyExit :=
  let st2 := if ynAns ans.saveCfg = "y" then
    { st with prev_user_lines := some lines, prev_do_default := dDefV,
              prev_do_desc := some dDesc }
    else st
  let tdef := dDefV = some true
  let pv := (previewPrints interfaces cdp tdef dDesc lines).map Ev.print
  if ynAns ans.confirm ≠ "y" then
    (pv ++ [Ev.print "Cancelled by user.", Ev.disconnect], st2, BodyExit.earlyAsk)
  else
    (pv ++ applyPhase interfaces cdp tdef dDesc lines dev ++
      [Ev.print "Configuration complete."], st2, BodyExit.fallth)

def totalAps (interfaces : List (String × List String)) : Nat :=
  (interfaces.map (fun p => p.2.length)).sum

/-- `sorted(interfaces.items())`: items in sorted key order. -/
def sortedItems (interfaces : List (String × List String)) : List (String × List String) :=
  (sortKeys (interfaces.map Prod.fst)).filterMap
    (fun k => (alookup interfaces k).map (fun ds => (k, ds)))

def listingPrints (interfaces : List (String × List String)) : List Ev :=
  ((sortedItems interfaces).map (fun p =>
    p.2.map (fun d => Ev.print ("  " ++ p.1 ++ " - " ++ d)))).flatten

/-- The body of the `try` block (lines 138-308): discovery, grouping, the
opportunistic detail query, the prompts, preview, confirmation and apply.
Every early-exit path calls `disconnect` explicitly before leaving. -/
def tryBody (st : SessionState) (ans : Answers) (dev : Device) :
    List Ev × SessionState × BodyExit :=
  match dev.powerResult with
  | none => ([Ev.sendCommand "show power inline" false], st, BodyExit.crashed)
  | some out =>
    let e0 := Ev.sendCommand "show power inline" true
    let aps := find_aps_in_cdp out
    if aps = [] then
      ([e0, Ev.print "No APs found with 'AIR-' or 'C91' in power inline.", Ev.disconnect],
       st, BodyExit.earlyAsk)
    else
      let interfaces := groupPairs aps
      let cdpPair :=
        match dev.cdpResult with
        | none => (Ev.sendCommand "show cdp neighbors detail" false,
                   ([] : List (String × String)))
        | some t => (Ev.sendCommand "show cdp neighbors detail" true,
                     parse_cdp_neighbors_detail t)
      let hdr := [Ev.print ("Found " ++ toString (totalAps interfaces) ++ " AP(s)."),
                  Ev.print "Interfaces with APs:"] ++ listingPrints interfaces
      if ynAns ans.proceed ≠ "y" then
        ([e0, cdpPair.1] ++ hdr ++
          [Ev.print "Skipping configuration on this switch.", Ev.disconnect],
         st, BodyExit.earlyAsk)
      else
        match configPhase st ans with
        | CfgOut.exit tr => ([e0, cdpPair.1] ++ hdr ++ tr, st, BodyExit.earlyAsk)
        | CfgOut.go tr lines dDefV dDesc =>
          let r := afterCfg st ans dev interfaces cdpPair.2 lines dDefV dDesc
          ([e0, cdpPair.1] ++ hdr ++ tr ++ r.1, r.2.1, r.2.2)

/-- What happens after one device iteration. -/
inductive Outcome where
  | loopAgain
  | exitRun
  | crash
deriving Repr, DecidableEq

structure IterOut where
  trace : List Ev
  state : SessionState
  outcome : Outcome
deriving Repr, DecidableEq

/-- The credential step (lines 100-112): first entry or declined reuse stores
the freshly entered credentials immediately. -/
def credStep (st : SessionState) (ans : Answers) : Creds × SessionState :=
  let newC : Creds := ⟨pyStripS ans.entered.username, ans.entered.password⟩
  match st.credentials with
  | none => (newC, { st with credentials := some newC })
  | some c =>
    if ynAns ans.useCreds = "n" then (newC, { st with credentials := some newC })
    else (c, st)

/-- One iteration of the `while True` loop of `main` (lines 92-319): the
`finally` clause appends a `disconnect` after the `try` body on every path,
including the crash path, swallowing any error of that second call. -/
def deviceIteration (st : SessionState) (ip : String) (ans : Answers) (dev : Device) :
    IterOut :=
  if pyStripS ip = "" then ⟨[Ev.print "Exiting."], st, Outcome.exitRun⟩
  else
    let cs := credStep st ans
    if dev.connOk then
      let b := tryBody cs.2 ans dev
      ⟨Ev.connect (pyStripS ip) cs.1.username cs.1.password true :: (b.1 ++ [Ev.disconnect]),
       b.2.1,
       match b.2.2 with
       | BodyExit.crashed => Outcome.crash
       | _ => if ynAns ans.again = "y" then Outcome.loopAgain else Outcome.exitRun⟩
    else
      ⟨[Ev.connect (pyStripS ip) cs.1.username cs.1.password false,
        Ev.print ((if dev.connErrNetmiko then "Connection error: " else "Unexpected error: ") ++
          dev.connErrMsg)],
       cs.2,
       if ynAns ans.again = "y" then Outcome.loopAgain else Outcome.exitRun⟩

/-- Number of `disconnect` events in a trace. -/
def dCount : List Ev → Nat
  | [] => 0
  | Ev.disconnect :: t => 1 + dCount t
  | _ :: t => dCount t

/-- The `(device, interface)` summary pairs of the spec's §8 end-to-end
scenario, interface names normalized as `find_aps_in_cdp` does, then grouped. -/
def scenInterfaces : List (String × List String) :=
  groupPairs ([("AIR-AP1815", "Gi1/0/1"), ("C9115", "Gi1/0/2")].map
    (fun p => (p.1, normalize_interface_name p.2)))

/-- The per-interface command batches emitted by the apply loop
(lines 283-299): sorted interface order, the unknown sentinel excluded. -/
def planOf (interfaces : List (String × List String)) (cdp : List (String × String))
    (tdef tdesc : Bool) (lines : List String) : List (String × List String) :=
  ((sortKeys (interfaces.map Prod.fst)).filter (fun i => decide (i ≠ "<unknown>"))).map
    (fun i => (i, buildCfg interfaces cdp tdef tdesc lines i))

/-- The `send_config_set` events of a trace, in order. -/
def configEvents : List Ev → List (List String × Bool)
  | [] => []
  | Ev.configSet c b :: t => (c, b) :: configEvents t
  | _ :: t => configEvents t

/-- One step of the spec-side reading of the `local_intf` register: the value
of the last `Local Intf:` label line seen so far (`""` when none seen or the
last one was empty). -/
def localFold (acc l : String) : String :=
  let t := pyStripS l
  if strBegins "Local Intf:" t then valueAfter t "Local Intf:" else acc

def lastLocalIntfVal (lines : List String) : String := lines.foldl localFold ""

/-- Relation between the scanner's optional register and the string fold. -/
def localRel : Option String → String → Prop
  | none, s => s = ""
  | some v, s => v = s

/-- The description value of a record is justified by a strictly later
non-empty line after a `System Description:` label line, with only blank
lines in between — never the label line itself. -/
def DescWitness (lines : List String) (d : String) : Prop :=
  ∃ pre lbl mid dl post, lines = pre ++ lbl :: (mid ++ dl :: post) ∧
    strBegins "System Description:" (pyStripS lbl) = true ∧
    (∀ m ∈ mid, pyStripS m = "") ∧ pyStripS dl = d ∧ d ≠ ""

/-- The shape `('/' digits+)*` of the tail produced by `slotTailF`. -/
inductive TailShape : List Char → Prop
  | nil : TailShape []
  | cons (d : Char) (ds rest : List Char) (hd : isDigitC d = true)
      (hds : ∀ c ∈ ds, isDigitC c = true) (ht : TailShape rest) :
      TailShape ('/' :: d :: (ds ++ rest))

/-- The exact shape of any value returned by `searchDigitRun`:
a digit, more digits, then a `('/' digits+)*` tail. -/
def RunShape (nums : List Char) : Prop :=
  ∃ d ds tail, nums = d :: (ds ++ tail) ∧ isDigitC d = true ∧
    (∀ c ∈ ds, isDigitC c = true) ∧ TailShape tail

/-! ## Claims C4, C2, C1 -/

theorem normalize_matches_spec (x : String) :
    normalize_interface_name x = normalizeSpec x := by
  by_cases h : x = ""
  · subst h; decide
  · simp [normalize_interface_name, normalizeSpec, h]

/-- Claim C4: for every input token, `normalize` trims whitespace, extracts the
first slash-delimited digit run as the slot path, classifies the prefix by the
stated precedence (gig/gi, then ten/te, then fast/fa), returns the trimmed
input unchanged otherwise or when no digit run exists — stated as equality
with the spec-worded algorithm `normalizeSpec` — and satisfies the four
concrete examples. -/
theorem C4_normalize_algorithm :
    (∀ x, normalize_interface_name x = normalizeSpec x) ∧
    normalize_interface_name "Gi1/0/38" = "GigabitEthernet1/0/38" ∧
    normalize_interface_name "Te2/1" = "TenGigabitEthernet2/1" ∧
    normalize_interface_name "Fa0/3" = "FastEthernet0/3" ∧
    normalize_interface_name "Port-channel5" = "Port-channel5" :=
  ⟨normalize_matches_spec, by decide, by decide, by decide, by decide⟩

/-- Claim C2: the policy matcher returns the first policy (in list order)
whose predicate is true on the neighbor — so the emitted configuration is
that policy's config lines, regardless of later matches — and returns `none`
when no predicate is true. -/
theorem C2_policy_first_match :
    (∀ (n : NeighborRecord) (ps : List DevicePolicy) (i : Nat) (hi : i < ps.length),
      (ps.get ⟨i, hi⟩).matchFn n = true →
      (∀ j (hj : j < ps.length), j < i → (ps.get ⟨j, hj⟩).matchFn n = false) →
      matchPolicy n ps = some (ps.get ⟨i, hi⟩) ∧
      (matchPolicy n ps).map DevicePolicy.config = some (ps.get ⟨i, hi⟩).config) ∧
    (∀ (n : NeighborRecord) (ps : List DevicePolicy),
      (∀ p ∈ ps, p.matchFn n = false) → matchPolicy n ps = none) := by
  constructor
  · intro n ps
    induction ps with
    | nil => intro i hi; exact absurd hi (Nat.not_lt_zero i)
    | cons p rest ih =>
      intro i hi hmatch hearlier
      cases i with
      | zero =>
        have hp : p.matchFn n = true := hmatch
        have : matchPolicy n (p :: rest) = some p := by
          simp [matchPolicy, hp]
        exact ⟨this, by rw [this]; rfl⟩
      | succ i' =>
        have hp : p.matchFn n = false :=
          hearlier 0 (Nat.succ_pos _) (Nat.succ_pos i')
        have hrec := ih i' (Nat.lt_of_succ_lt_succ hi) hmatch
          (fun j hj hlt => hearlier (j + 1) (Nat.succ_lt_succ hj) (Nat.succ_lt_succ hlt))
        have hstep : matchPolicy n (p :: rest) = matchPolicy n rest := by
          simp [matchPolicy, hp]
        exact ⟨hstep.trans hrec.1, by rw [hstep]; exact hrec.2⟩
  · intro n ps hall
    induction ps with
    | nil => rfl
    | cons p rest ih =>
      have hp := hall p (List.mem_cons_self p rest)
      simp only [matchPolicy, hp]
      exact ih (fun q hq => hall q (List.mem_cons_of_mem p hq))

theorem C2_policy_first_match_witness :
    (matchPolicy ⟨"Gi1/0/1", "LEAF1", "ARISTA AP C-130"⟩ DEVICE_POLICIES).map
      DevicePolicy.name = some "Arista Leaf Switch" := by
  have h := (C2_policy_first_match.1 ⟨"Gi1/0/1", "LEAF1", "ARISTA AP C-130"⟩
    DEVICE_POLICIES 0 (by decide) (by decide)
    (fun j hj hlt => absurd hlt (Nat.not_lt_zero j))).1
  rw [h]; rfl

/-- Claim C1: for an interface with at least one discovered neighbor (and no
empty-string identities, which the parsers cannot produce), the built batch is
exactly: optional `default interface`, `interface`, optional `description`
(detail-mapping hostname first, else the first summary identity), then the
user lines; and the §8 scenario yields exactly the two expected sequences. -/
theorem C1_plan_builder :
    (∀ (interfaces : List (String × List String)) (cdp : List (String × String))
       (tdef tdesc : Bool) (lines : List String) (intf d : String) (rest : List String),
      alookup interfaces intf = some (d :: rest) →
      alookup cdp intf ≠ some "" →
      d ≠ "" →
      buildCfg interfaces cdp tdef tdesc lines intf =
        (if tdef then ["default interface " ++ intf] else []) ++
        ["interface " ++ intf] ++
        (if tdesc then ["description " ++ ((alookup cdp intf).getD d)] else []) ++
        lines) ∧
    planOf scenInterfaces [("GigabitEthernet1/0/1", "lobby-ap")] false true
        ["power inline auto"] =
      [("GigabitEthernet1/0/1",
        ["interface GigabitEthernet1/0/1", "description lobby-ap", "power inline auto"]),
       ("GigabitEthernet1/0/2",
        ["interface GigabitEthernet1/0/2", "description C9115", "power inline auto"])] := by
  constructor
  · intro interfaces cdp tdef tdesc lines intf d rest hif hcdp hd
    have hdesc : descFor cdp interfaces intf = some ((alookup cdp intf).getD d) := by
      unfold descFor
      rw [hif]
      cases hc : alookup cdp intf with
      | none => simp [hd]
      | some s =>
        have hs : s ≠ "" := by intro h; exact hcdp (by rw [hc, h])
        simp [hs]
    unfold buildCfg
    rw [hdesc]
  · decide

theorem C1_plan_builder_witness :
    buildCfg scenInterfaces [("GigabitEthernet1/0/1", "lobby-ap")] false true
      ["power inline auto"] "GigabitEthernet1/0/2" =
      ["interface GigabitEthernet1/0/2", "description C9115", "power inline auto"] := by
  have h := C1_plan_builder.1 scenInterfaces [("GigabitEthernet1/0/1", "lobby-ap")]
    false true ["power inline auto"] "GigabitEthernet1/0/2" "C9115" []
    (by decide) (by decide) (by decide)
  rw [h]; decide

/-! ## Claim C5: CDP-detail parser as a single-register state machine -/

theorem alookup_dictInsert {β : Type} (m : List (String × β)) (k : String) (v : β)
    (k2 : String) :
    alookup (dictInsert m k v) k2 = if k = k2 then some v else alookup m k2 := by
  induction m with
  | nil => simp [dictInsert, alookup]
  | cons e rest ih =>
    obtain ⟨a, b⟩ := e
    by_cases hak : a = k
    · subst hak
      by_cases h2 : a = k2
      · subst h2; simp [dictInsert, alookup]
      · simp [dictInsert, alookup, h2]
    · by_cases h2 : a = k2
      · subst h2
        have hk2 : ¬ k = a := fun h => hak h.symm
        simp [dictInsert, alookup, hak, hk2]
      · simp [dictInsert, alookup, hak, h2, ih]

theorem cdpScan_cons (line : String) (rest : List String) (cur : Option String) :
    cdpScan (line :: rest) cur =
      (match deviceLineVal line with
       | some d => cdpScan rest (some d)
       | none =>
         match cur with
         | some c =>
           if c ≠ "" then
             match interfaceLineVal line with
             | some iv => (normalize_interface_name iv, c) :: cdpScan rest none
             | none => cdpScan rest cur
           else cdpScan rest cur
         | none => cdpScan rest cur) := rfl

theorem cdp_fold_lookup (ls : List String) :
    ∀ (m : List (String × String)) (cur : Option String) (k : String),
      alookup ((ls.foldl cdpStepDict (m, cur)).1) k =
        (match lastVal (cdpScan ls cur) k with
         | some v => some v
         | none => alookup m k) := by
  induction ls with
  | nil => intro m cur k; simp [cdpScan, lastVal]
  | cons line rest ih =>
    intro m cur k
    rw [List.foldl_cons, cdpScan_cons]
    show alookup ((rest.foldl cdpStepDict (cdpStepDict (m, cur) line)).1) k = _
    simp only [cdpStepDict]
    cases hdev : deviceLineVal line with
    | some d => simpa using ih m (some d) k
    | none =>
      cases hcur : cur with
      | none => simpa using ih m none k
      | some c =>
        by_cases hc : c = ""
        · simp only [hc, ne_eq, not_true_eq_false, if_false]
          simpa using ih m (some "") k
        · have hc' : (c ≠ "") = True := by simp [hc]
          simp only [ne_eq, hc, not_false_eq_true, if_true, hc', ite_true]
          cases hint : interfaceLineVal line with
          | none => simpa using ih m (some c) k
          | some iv =>
            rw [ih (dictInsert m (normalize_interface_name iv) c) none k]
            simp only [lastVal]
            cases hl : lastVal (cdpScan rest none) k with
            | some w => simp
            | none =>
              simp only [alookup_dictInsert]
              by_cases hk : normalize_interface_name iv = k <;> simp [hk]

/-- Claim C5: the detail parser is the single-register state machine of the
spec — its dict, read at any key, equals the last emission of the machine for
that key (last-write-wins, a mapping not a multi-map) — and the §8 example
text parses to exactly the expected single-entry mapping. -/
theorem C5_cdp_detail_state_machine :
    (∀ (out : String) (k : String),
      alookup (parse_cdp_neighbors_detail out) k =
        lastVal (cdpScan (splitLines out) none) k) ∧
    parse_cdp_neighbors_detail
        "Device ID: SW-CORE-1\n  Interface: GigabitEthernet1/0/1,  Port ID (outgoing port): Gi0/1" =
      [("GigabitEthernet1/0/1", "SW-CORE-1")] := by
  constructor
  · intro out k
    have h := cdp_fold_lookup (splitLines out) [] none k
    unfold parse_cdp_neighbors_detail
    rw [h]
    cases lastVal (cdpScan (splitLines out) none) k <;> simp [alookup]
  · decide

/-! ## Claims C8 and C9: the apply loop -/

theorem configEvents_append (a b : List Ev) :
    configEvents (a ++ b) = configEvents a ++ configEvents b := by
  induction a with
  | nil => rfl
  | cons e t ih => cases e <;> simp [configEvents, ih]

theorem mem_insertSorted (x y : String) (l : List String) :
    x ∈ insertSorted y l ↔ x = y ∨ x ∈ l := by
  induction l with
  | nil => simp [insertSorted]
  | cons z t ih =>
    simp only [insertSorted]
    by_cases h : strLeL y.toList z.toList = true
    · rw [if_pos h]
      simp only [List.mem_cons]
    · rw [if_neg h]
      simp only [List.mem_cons, ih]
      tauto

theorem mem_sortKeys (x : String) (l : List String) : x ∈ sortKeys l ↔ x ∈ l := by
  induction l with
  | nil => simp [sortKeys]
  | cons y t ih =>
    show x ∈ insertSorted y (sortKeys t) ↔ _
    rw [mem_insertSorted, ih]
    simp

theorem configEvents_applyOne (interfaces : List (String × List String))
    (cdp : List (String × String)) (tdef tdesc : Bool) (lines : List String)
    (dev : Device) (i : String) :
    configEvents (applyOne interfaces cdp tdef tdesc lines dev i) =
      if i = "<unknown>" then []
      else [(buildCfg interfaces cdp tdef tdesc lines i,
             dev.configOk (buildCfg interfaces cdp tdef tdesc lines i))] := by
  by_cases h : i = "<unknown>"
  · simp [applyOne, h, configEvents]
  · by_cases hok : dev.configOk (buildCfg interfaces cdp tdef tdesc lines i) = true
    · simp [applyOne, h, hok, configEvents]
    · simp only [Bool.not_eq_true] at hok
      simp [applyOne, h, hok, configEvents]

theorem configEvents_applyChunk (interfaces : List (String × List String))
    (cdp : List (String × String)) (tdef tdesc : Bool) (lines : List String)
    (dev : Device) (ks : List String) :
    configEvents ((ks.map (applyOne interfaces cdp tdef tdesc lines dev)).flatten) =
      (ks.filter (fun i => decide (i ≠ "<unknown>"))).map
        (fun i => (buildCfg interfaces cdp tdef tdesc lines i,
                   dev.configOk (buildCfg interfaces cdp tdef tdesc lines i))) := by
  induction ks with
  | nil => rfl
  | cons i t ih =>
    simp only [List.map_cons, List.flatten_cons, configEvents_append,
      configEvents_applyOne, List.filter_cons, ih]
    by_cases h : i = "<unknown>" <;> simp [h]

/-- Claim C8: each interface's batch is applied independently — the sequence
of `send_config_set` events is exactly one batch per non-sentinel interface
in sorted order, unaffected by which batches fail (no truncation, no extra
rollback commands) — and a failed batch is reported with an error print. -/
theorem C8_partial_failure_isolation :
    ∀ (interfaces : List (String × List String)) (cdp : List (String × String))
      (tdef tdesc : Bool) (lines : List String) (dev : Device),
      configEvents (applyPhase interfaces cdp tdef tdesc lines dev) =
        ((sortKeys (interfaces.map Prod.fst)).filter
            (fun i => decide (i ≠ "<unknown>"))).map
          (fun i => (buildCfg interfaces cdp tdef tdesc lines i,
                     dev.configOk (buildCfg interfaces cdp tdef tdesc lines i))) ∧
      (∀ i, i ∈ interfaces.map Prod.fst → i ≠ "<unknown>" →
        dev.configOk (buildCfg interfaces cdp tdef tdesc lines i) = false →
        Ev.print ("Error configuring " ++ i ++ ": " ++ dev.cmdErrMsg) ∈
          applyPhase interfaces cdp tdef tdesc lines dev) := by
  intro interfaces cdp tdef tdesc lines dev
  constructor
  · exact configEvents_applyChunk interfaces cdp tdef tdesc lines dev _
  · intro i hmem hunk hfail
    have hks : i ∈ sortKeys (interfaces.map Prod.fst) := (mem_sortKeys _ _).mpr hmem
    have hsub : applyOne interfaces cdp tdef tdesc lines dev i ∈
        (sortKeys (interfaces.map Prod.fst)).map
          (applyOne interfaces cdp tdef tdesc lines dev) :=
      List.mem_map_of_mem _ hks
    have hin : Ev.print ("Error configuring " ++ i ++ ": " ++ dev.cmdErrMsg) ∈
        applyOne interfaces cdp tdef tdesc lines dev i := by
      simp [applyOne, hunk, hfail]
    exact List.mem_flatten.mpr ⟨_, hsub, hin⟩

theorem C8_partial_failure_isolation_witness :
    Ev.print "Error configuring GigabitEthernet1/0/9: boom" ∈
      applyPhase [("GigabitEthernet1/0/9", ["AIR-AP99"])] [] false false
        ["power inline auto"] ⟨true, true, "", none, none, fun _ => false, "boom"⟩ :=
  (C8_partial_failure_isolation [("GigabitEthernet1/0/9", ["AIR-AP99"])] [] false false
    ["power inline auto"] ⟨true, true, "", none, none, fun _ => false, "boom"⟩).2
    "GigabitEthernet1/0/9" (by decide) (by decide) rfl

/-- Claim C9: no emitted batch ever targets the `<unknown>` sentinel — every
`send_config_set` event is the batch of a real discovered interface — and
when the sentinel is present its exclusion is reported by a skip notice in
both the rendered preview and the apply-phase output. -/
theorem C9_unknown_sentinel_excluded :
    ∀ (interfaces : List (String × List String)) (cdp : List (String × String))
      (tdef tdesc : Bool) (lines : List String) (dev : Device),
      (∀ cmds ok, Ev.configSet cmds ok ∈ applyPhase interfaces cdp tdef tdesc lines dev →
        ∃ i, i ∈ interfaces.map Prod.fst ∧ i ≠ "<unknown>" ∧
          cmds = buildCfg interfaces cdp tdef tdesc lines i) ∧
      ("<unknown>" ∈ interfaces.map Prod.fst →
        "  Skipping unknown interface" ∈ previewPrints interfaces cdp tdef tdesc lines ∧
        Ev.print "Skipping unknown interface" ∈
          applyPhase interfaces cdp tdef tdesc lines dev) := by
  intro interfaces cdp tdef tdesc lines dev
  constructor
  · intro cmds ok hmem
    obtain ⟨sub, hsub, hev⟩ := List.mem_flatten.mp hmem
    obtain ⟨i, hik, rfl⟩ := List.mem_map.mp hsub
    by_cases h : i = "<unknown>"
    · simp [applyOne, h] at hev
    · refine ⟨i, (mem_sortKeys _ _).mp hik, h, ?_⟩
      by_cases hok : dev.configOk (buildCfg interfaces cdp tdef tdesc lines i) = true
      · simp [applyOne, h, hok] at hev
        exact hev.1
      · simp only [Bool.not_eq_true] at hok
        simp [applyOne, h, hok] at hev
        exact hev.1
  · intro hmem
    have hks : "<unknown>" ∈ sortKeys (interfaces.map Prod.fst) :=
      (mem_sortKeys _ _).mpr hmem
    constructor
    · unfold previewPrints
      refine List.mem_cons_of_mem _ (List.mem_flatten.mpr ⟨["  Skipping unknown interface"], ?_, ?_⟩)
      · exact List.mem_map.mpr ⟨"<unknown>", hks, by simp⟩
      · simp
    · unfold applyPhase
      refine List.mem_flatten.mpr ⟨applyOne interfaces cdp tdef tdesc lines dev "<unknown>", List.mem_map_of_mem _ hks, ?_⟩
      simp [applyOne]

theorem C9_unknown_sentinel_excluded_witness :
    "  Skipping unknown interface" ∈
      previewPrints [("<unknown>", ["AIR-AP77"])] [] false false [] :=
  ((C9_unknown_sentinel_excluded [("<unknown>", ["AIR-AP77"])] [] false false []
    ⟨true, true, "", none, none, fun _ => true, ""⟩).2 (by decide)).1

/-! ## Claim C7: session release (disconnect counting) -/

theorem dCount_cons (e : Ev) (t : List Ev) :
    dCount (e :: t) = (match e with | Ev.disconnect => 1 | _ => 0) + dCount t := by
  cases e <;> simp [dCount]

theorem dCount_append (a b : List Ev) : dCount (a ++ b) = dCount a + dCount b := by
  induction a with
  | nil => simp [dCount]
  | cons e t ih =>
    rw [List.cons_append, dCount_cons, dCount_cons, ih]
    omega

theorem dCount_map_print (l : List String) : dCount (l.map Ev.print) = 0 := by
  induction l with
  | nil => rfl
  | cons s t ih => simpa [dCount] using ih

theorem dCount_flatten_zero (ls : List (List Ev)) (h : ∀ x ∈ ls, dCount x = 0) :
    dCount ls.flatten = 0 := by
  induction ls with
  | nil => rfl
  | cons a t ih =>
    rw [List.flatten_cons, dCount_append, h a (List.mem_cons_self a t),
      ih (fun x hx => h x (List.mem_cons_of_mem a hx))]

theorem dCount_applyOne (interfaces : List (String × List String))
    (cdp : List (String × String)) (tdef tdesc : Bool) (lines : List String)
    (dev : Device) (i : String) :
    dCount (applyOne interfaces cdp tdef tdesc lines dev i) = 0 := by
  by_cases h : i = "<unknown>"
  · simp [applyOne, h, dCount]
  · by_cases hok : dev.configOk (buildCfg interfaces cdp tdef tdesc lines i) = true
    · simp [applyOne, h, hok, dCount]
    · simp only [Bool.not_eq_true] at hok
      simp [applyOne, h, hok, dCount]

theorem dCount_applyPhase (interfaces : List (String × List String))
    (cdp : List (String × String)) (tdef tdesc : Bool) (lines : List String)
    (dev : Device) :
    dCount (applyPhase interfaces cdp tdef tdesc lines dev) = 0 := by
  unfold applyPhase
  refine dCount_flatten_zero _ ?_
  intro x hx
  obtain ⟨i, _, rfl⟩ := List.mem_map.mp hx
  exact dCount_applyOne interfaces cdp tdef tdesc lines dev i

theorem dCount_listingPrints (interfaces : List (String × List String)) :
    dCount (listingPrints interfaces) = 0 := by
  unfold listingPrints
  refine dCount_flatten_zero _ ?_
  intro x hx
  obtain ⟨p, _, rfl⟩ := List.mem_map.mp hx
  have h : p.2.map (fun d => Ev.print ("  " ++ p.1 ++ " - " ++ d)) =
      (p.2.map (fun d => "  " ++ p.1 ++ " - " ++ d)).map Ev.print := by
    simp
  rw [h, dCount_map_print]

theorem freshEntry_exit_dCount (ans : Answers) (tr : List Ev)
    (h : freshEntry ans = CfgOut.exit tr) : dCount tr = 1 := by
  unfold freshEntry at h
  dsimp only at h
  split_ifs at h <;> cases h
  rfl

theorem freshEntry_go_dCount (ans : Answers) (tr : List Ev) (l : List String)
    (dv : Option Bool) (dd : Bool) (h : freshEntry ans = CfgOut.go tr l dv dd) :
    dCount tr = 0 := by
  unfold freshEntry at h
  dsimp only at h
  split_ifs at h <;> cases h <;> rfl

theorem configPhase_exit_dCount (st : SessionState) (ans : Answers) (tr : List Ev)
    (h : configPhase st ans = CfgOut.exit tr) : dCount tr = 1 := by
  unfold configPhase at h
  cases hpl : st.prev_user_lines with
  | none => rw [hpl] at h; exact freshEntry_exit_dCount ans tr h
  | some pl =>
    rw [hpl] at h
    dsimp only at h
    by_cases hr : ynAns ans.reuseCfg ≠ "n"
    · rw [if_pos hr] at h; cases h
    · rw [if_neg hr] at h; exact freshEntry_exit_dCount ans tr h

theorem configPhase_go_dCount (st : SessionState) (ans : Answers) (tr : List Ev)
    (l : List String) (dv : Option Bool) (dd : Bool)
    (h : configPhase st ans = CfgOut.go tr l dv dd) : dCount tr = 0 := by
  unfold configPhase at h
  cases hpl : st.prev_user_lines with
  | none => rw [hpl] at h; exact freshEntry_go_dCount ans tr l dv dd h
  | some pl =>
    rw [hpl] at h
    dsimp only at h
    by_cases hr : ynAns ans.reuseCfg ≠ "n"
    · rw [if_pos hr] at h
      cases h; rfl
    · rw [if_neg hr] at h; exact freshEntry_go_dCount ans tr l dv dd h

theorem afterCfg_dCount (st : SessionState) (ans : Answers) (dev : Device)
    (interfaces : List (String × List String)) (cdp : List (String × String))
    (lines : List String) (dv : Option Bool) (dd : Bool) :
    dCount (afterCfg st ans dev interfaces cdp lines dv dd).1 ≤ 1 := by
  unfold afterCfg
  dsimp only
  by_cases hcf : ynAns ans.confirm ≠ "y"
  · rw [if_pos hcf]
    dsimp only
    rw [dCount_append, dCount_map_print]
    simp [dCount]
  · rw [if_neg hcf]
    dsimp only
    rw [dCount_append, dCount_append, dCount_map_print, dCount_applyPhase]
    simp [dCount]

theorem tryBody_dCount (st : SessionState) (ans : Answers) (dev : Device) :
    dCount (tryBody st ans dev).1 ≤ 1 := by
  unfold tryBody
  cases hp : dev.powerResult with
  | none => simp [dCount]
  | some out =>
    dsimp only
    by_cases ha : find_aps_in_cdp out = []
    · rw [if_pos ha]
      simp [dCount]
    · rw [if_neg ha]
      cases hc : dev.cdpResult with
      | none =>
        dsimp only
        by_cases hpr : ynAns ans.proceed ≠ "y"
        · rw [if_pos hpr]
          dsimp only
          rw [dCount_append, dCount_append, dCount_append, dCount_listingPrints]
          simp [dCount]
        · rw [if_neg hpr]
          cases hcp : configPhase st ans with
          | exit tr =>
            dsimp only
            rw [dCount_append, dCount_append, dCount_append, dCount_listingPrints,
              configPhase_exit_dCount st ans tr hcp]
            simp [dCount]
          | go tr l dv dd =>
            dsimp only
            have h2 := afterCfg_dCount st ans dev (groupPairs (find_aps_in_cdp out)) [] l dv dd
            rw [dCount_append, dCount_append, dCount_append, dCount_append,
              dCount_listingPrints, configPhase_go_dCount st ans tr l dv dd hcp]
            simp only [dCount]
            simp [dCount]
            omega
      | some t =>
        dsimp only
        by_cases hpr : ynAns ans.proceed ≠ "y"
        · rw [if_pos hpr]
          dsimp only
          rw [dCount_append, dCount_append, dCount_append, dCount_listingPrints]
          simp [dCount]
        · rw [if_neg hpr]
          cases hcp : configPhase st ans with
          | exit tr =>
            dsimp only
            rw [dCount_append, dCount_append, dCount_append, dCount_listingPrints,
              configPhase_exit_dCount st ans tr hcp]
            simp [dCount]
          | go tr l dv dd =>
            dsimp only
            have h2 := afterCfg_dCount st ans dev (groupPairs (find_aps_in_cdp out))
              (parse_cdp_neighbors_detail t) l dv dd
            rw [dCount_append, dCount_append, dCount_append, dCount_append,
              dCount_listingPrints, configPhase_go_dCount st ans tr l dv dd hcp]
            simp only [dCount]
            simp [dCount]
            omega

theorem dCount_connect_cons (h u p : String) (ok : Bool) (t : List Ev) :
    dCount (Ev.connect h u p ok :: t) = dCount t := rfl

/-- Claim C7 counterexample: on the no-neighbors path the explicit
`ssh.disconnect()` (line 144) runs and then the `finally` clause (line 311)
runs `disconnect` again — `close()` is reached twice on this iteration, not
exactly once. -/
theorem C7_session_release_counterexample :
    dCount (deviceIteration ⟨none, none, none, none⟩ "10.0.0.1"
      ⟨"", ⟨"alice", "pw"⟩, "y", "", "y", ["."], "n", "n", "y", "n"⟩
      ⟨true, true, "", some "", some "", fun _ => true, "err"⟩).trace = 2 := by
  decide

/-- Claim C7 (amended): on every connected device iteration — including
crash-on-discovery and per-interface-failure paths — the session release is
reached at least once (the `finally` clause guarantees it, so it is never
skipped) and at most twice (early-exit paths disconnect explicitly and the
`finally` clause then runs a second, error-swallowed `disconnect`). -/
theorem C7_session_release :
    ∀ (st : SessionState) (ip : String) (ans : Answers) (dev : Device),
      pyStripS ip ≠ "" → dev.connOk = true →
      1 ≤ dCount (deviceIteration st ip ans dev).trace ∧
      dCount (deviceIteration st ip ans dev).trace ≤ 2 := by
  intro st ip ans dev hip hconn
  unfold deviceIteration
  rw [if_neg hip]
  dsimp only
  rw [if_pos hconn]
  dsimp only
  rw [dCount_connect_cons, dCount_append]
  have h := tryBody_dCount (credStep st ans).2 ans dev
  have h1 : dCount [Ev.disconnect] = 1 := rfl
  rw [h1]
  omega

theorem C7_session_release_witness :
    1 ≤ dCount (deviceIteration ⟨none, none, none, none⟩ "10.0.0.2"
      ⟨"", ⟨"bob", "pw"⟩, "n", "", "y", ["."], "n", "n", "n", "n"⟩
      ⟨true, true, "", some "", none, fun _ => true, "err"⟩).trace ∧
    dCount (deviceIteration ⟨none, none, none, none⟩ "10.0.0.2"
      ⟨"", ⟨"bob", "pw"⟩, "n", "", "y", ["."], "n", "n", "n", "n"⟩
      ⟨true, true, "", some "", none, fun _ => true, "err"⟩).trace ≤ 2 :=
  C7_session_release ⟨none, none, none, none⟩ "10.0.0.2"
    ⟨"", ⟨"bob", "pw"⟩, "n", "", "y", ["."], "n", "n", "n", "n"⟩
    ⟨true, true, "", some "", none, fun _ => true, "err"⟩ (by decide) rfl

/-! ## Claim C10: persisted session state -/

theorem credStep_prev (st : SessionState) (ans : Answers) :
    (credStep st ans).2.prev_user_lines = st.prev_user_lines ∧
    (credStep st ans).2.prev_do_default = st.prev_do_default ∧
    (credStep st ans).2.prev_do_desc = st.prev_do_desc := by
  unfold credStep
  cases hc : st.credentials with
  | none => simp
  | some c =>
    dsimp only
    by_cases h : ynAns ans.useCreds = "n"
    · rw [if_pos h]
      exact ⟨rfl, rfl, rfl⟩
    · rw [if_neg h]
      simp

theorem credStep_credentials_keep (st : SessionState) (ans : Answers) (c : Creds)
    (hc : st.credentials = some c) (h : ynAns ans.useCreds ≠ "n") :
    (credStep st ans).2.credentials = some c := by
  unfold credStep
  rw [hc]
  dsimp only
  rw [if_neg h]
  exact hc

theorem afterCfg_state_noSave (st : SessionState) (ans : Answers) (dev : Device)
    (interfaces : List (String × List String)) (cdp : List (String × String))
    (lines : List String) (dv : Option Bool) (dd : Bool)
    (h : ynAns ans.saveCfg ≠ "y") :
    (afterCfg st ans dev interfaces cdp lines dv dd).2.1 = st := by
  unfold afterCfg
  dsimp only
  by_cases hcf : ynAns ans.confirm ≠ "y"
  · rw [if_pos hcf]
    dsimp only
    rw [if_neg h]
  · rw [if_neg hcf]
    dsimp only
    rw [if_neg h]

theorem afterCfg_credentials (st : SessionState) (ans : Answers) (dev : Device)
    (interfaces : List (String × List String)) (cdp : List (String × String))
    (lines : List String) (dv : Option Bool) (dd : Bool) :
    (afterCfg st ans dev interfaces cdp lines dv dd).2.1.credentials =
      st.credentials := by
  unfold afterCfg
  dsimp only
  by_cases hcf : ynAns ans.confirm ≠ "y"
  · rw [if_pos hcf]
    dsimp only
    by_cases hs : ynAns ans.saveCfg = "y"
    · rw [if_pos hs]
    · rw [if_neg hs]
  · rw [if_neg hcf]
    dsimp only
    by_cases hs : ynAns ans.saveCfg = "y"
    · rw [if_pos hs]
    · rw [if_neg hs]

theorem tryBody_state_noSave (st : SessionState) (ans : Answers) (dev : Device)
    (h : ynAns ans.saveCfg ≠ "y") : (tryBody st ans dev).2.1 = st := by
  unfold tryBody
  cases hp : dev.powerResult with
  | none => rfl
  | some out =>
    dsimp only
    by_cases ha : find_aps_in_cdp out = []
    · rw [if_pos ha]
    · rw [if_neg ha]
      cases hc : dev.cdpResult with
      | none =>
        dsimp only
        by_cases hpr : ynAns ans.proceed ≠ "y"
        · rw [if_pos hpr]
        · rw [if_neg hpr]
          cases hcp : configPhase st ans with
          | exit tr => rfl
          | go tr l dv dd =>
            dsimp only
            exact afterCfg_state_noSave st ans dev _ _ l dv dd h
      | some t =>
        dsimp only
        by_cases hpr : ynAns ans.proceed ≠ "y"
        · rw [if_pos hpr]
        · rw [if_neg hpr]
          cases hcp : configPhase st ans with
          | exit tr => rfl
          | go tr l dv dd =>
            dsimp only
            exact afterCfg_state_noSave st ans dev _ _ l dv dd h

theorem tryBody_credentials (st : SessionState) (ans : Answers) (dev : Device) :
    (tryBody st ans dev).2.1.credentials = st.credentials := by
  unfold tryBody
  cases hp : dev.powerResult with
  | none => rfl
  | some out =>
    dsimp only
    by_cases ha : find_aps_in_cdp out = []
    · rw [if_pos ha]
    · rw [if_neg ha]
      cases hc : dev.cdpResult with
      | none =>
        dsimp only
        by_cases hpr : ynAns ans.proceed ≠ "y"
        · rw [if_pos hpr]
        · rw [if_neg hpr]
          cases hcp : configPhase st ans with
          | exit tr => rfl
          | go tr l dv dd =>
            dsimp only
            exact afterCfg_credentials st ans dev _ _ l dv dd
      | some t =>
        dsimp only
        by_cases hpr : ynAns ans.proceed ≠ "y"
        · rw [if_pos hpr]
        · rw [if_neg hpr]
          cases hcp : configPhase st ans with
          | exit tr => rfl
          | go tr l dv dd =>
            dsimp only
            exact afterCfg_credentials st ans dev _ _ l dv dd

/-- Claim C10 counterexample: declining to reuse credentials re-enters and
immediately persists them — the stored credentials change during a round in
which the save-for-reuse prompt was never confirmed (here never even
reached: the connection fails right after the credential step). -/
theorem C10_state_mutation_counterexample :
    (deviceIteration ⟨some ["l1"], some false, some true, some ⟨"alice", "pw1"⟩⟩
        "1.2.3.4" ⟨"n", ⟨"bob", "pw2"⟩, "y", "", "y", ["."], "n", "n", "y", "n"⟩
        ⟨false, true, "timeout", none, none, fun _ => true, "err"⟩).state.credentials =
      some ⟨"bob", "pw2"⟩ ∧
    (⟨some ["l1"], some false, some true, some ⟨"alice", "pw1"⟩⟩ :
        SessionState).credentials = some ⟨"alice", "pw1"⟩ ∧
    ynAns "n" ≠ "y" := by
  decide

/-- Claim C10 (amended): the stored configuration lines and the
default/description toggles are mutated only by an explicit "save for reuse"
confirmation — declining reuse or declining save leaves them unchanged — but
the stored credentials are persisted automatically whenever they are
(re-)entered: within a round where the user keeps the previous credentials,
they are unchanged; declining credential reuse replaces them at entry time
with no save confirmation involved. -/
theorem C10_state_mutation :
    ∀ (st : SessionState) (ip : String) (ans : Answers) (dev : Device),
      (ynAns ans.saveCfg ≠ "y" →
        ((deviceIteration st ip ans dev).state.prev_user_lines = st.prev_user_lines ∧
         (deviceIteration st ip ans dev).state.prev_do_default = st.prev_do_default ∧
         (deviceIteration st ip ans dev).state.prev_do_desc = st.prev_do_desc)) ∧
      (∀ c, st.credentials = some c → ynAns ans.useCreds ≠ "n" →
        (deviceIteration st ip ans dev).state.credentials = some c) := by
  intro st ip ans dev
  unfold deviceIteration
  by_cases hip : pyStripS ip = ""
  · rw [if_pos hip]
    exact ⟨fun _ => ⟨rfl, rfl, rfl⟩, fun c hc _ => hc⟩
  · rw [if_neg hip]
    dsimp only
    by_cases hconn : dev.connOk = true
    · rw [if_pos hconn]
      dsimp only
      constructor
      · intro hsave
        rw [tryBody_state_noSave (credStep st ans).2 ans dev hsave]
        exact credStep_prev st ans
      · intro c hc huse
        rw [tryBody_credentials (credStep st ans).2 ans dev]
        exact credStep_credentials_keep st ans c hc huse
    · rw [if_neg hconn]
      dsimp only
      refine ⟨fun _ => credStep_prev st ans, fun c hc huse => ?_⟩
      exact credStep_credentials_keep st ans c hc huse

theorem C10_state_mutation_witness :
    (deviceIteration ⟨some ["keep"], some true, some false, some ⟨"alice", "pw1"⟩⟩
        "1.2.3.4" ⟨"", ⟨"x", "y"⟩, "n", "", "y", ["."], "n", "n", "y", "n"⟩
        ⟨false, true, "timeout", none, none, fun _ => true, "err"⟩).state.prev_user_lines =
      some ["keep"] ∧
    (deviceIteration ⟨some ["keep"], some true, some false, some ⟨"alice", "pw1"⟩⟩
        "1.2.3.4" ⟨"", ⟨"x", "y"⟩, "n", "", "y", ["."], "n", "n", "y", "n"⟩
        ⟨false, true, "timeout", none, none, fun _ => true, "err"⟩).state.credentials =
      some ⟨"alice", "pw1"⟩ := by
  have h := C10_state_mutation
    ⟨some ["keep"], some true, some false, some ⟨"alice", "pw1"⟩⟩ "1.2.3.4"
    ⟨"", ⟨"x", "y"⟩, "n", "", "y", ["."], "n", "n", "y", "n"⟩
    ⟨false, true, "timeout", none, none, fun _ => true, "err"⟩
  exact ⟨(h.1 (by decide)).1, h.2 ⟨"alice", "pw1"⟩ rfl (by decide)⟩

/-! ## Claim C6: LLDP block emission -/

theorem lldpScan_cons (l : String) (rest : List String) (li : Option String)
    (sn sd : String) :
    lldpScan (l :: rest) li sn sd =
      (let t := pyStripS l
       if strBegins "Local Intf:" t then
         lldpScan rest (some (valueAfter t "Local Intf:")) sn sd
       else if strBegins "System Name:" t then
         lldpScan rest li (valueAfter t "System Name:") sd
       else if strBegins "System Description:" t then
         (match firstNonEmptyStrip rest with
          | some d => lldpScan rest li sn d
          | none => lldpScan rest li sn sd)
       else lldpScan rest li sn sd) := rfl

theorem lldpScan_localRel (lines : List String) :
    ∀ (li : Option String) (sn sd s : String), localRel li s →
      localRel (lldpScan lines li sn sd).1 (lines.foldl localFold s) := by
  induction lines with
  | nil => intro li sn sd s h; exact h
  | cons l rest ih =>
    intro li sn sd s h
    rw [lldpScan_cons, List.foldl_cons]
    dsimp only
    by_cases h1 : strBegins "Local Intf:" (pyStripS l) = true
    · rw [if_pos h1]
      have hf : localFold s l = valueAfter (pyStripS l) "Local Intf:" := by
        unfold localFold
        dsimp only
        rw [if_pos h1]
      rw [hf]
      exact ih _ sn sd _ rfl
    · rw [if_neg h1]
      have hf : localFold s l = s := by
        unfold localFold
        dsimp only
        rw [if_neg h1]
      rw [hf]
      by_cases h2 : strBegins "System Name:" (pyStripS l) = true
      · rw [if_pos h2]
        exact ih _ _ sd _ h
      · rw [if_neg h2]
        by_cases h3 : strBegins "System Description:" (pyStripS l) = true
        · rw [if_pos h3]
          cases hfn : firstNonEmptyStrip rest with
          | some d => exact ih _ _ _ _ h
          | none => exact ih _ _ _ _ h
        · rw [if_neg h3]
          exact ih _ _ _ _ h

theorem lldpScan_name_const (lines : List String) :
    ∀ (li : Option String) (sn sd : String),
      (∀ l ∈ lines, strBegins "System Name:" (pyStripS l) = false) →
      (lldpScan lines li sn sd).2.1 = sn := by
  induction lines with
  | nil => intro li sn sd _; rfl
  | cons l rest ih =>
    intro li sn sd hno
    rw [lldpScan_cons]
    dsimp only
    have hrest : ∀ m ∈ rest, strBegins "System Name:" (pyStripS m) = false :=
      fun m hm => hno m (List.mem_cons_of_mem l hm)
    by_cases h1 : strBegins "Local Intf:" (pyStripS l) = true
    · rw [if_pos h1]; exact ih _ sn sd hrest
    · rw [if_neg h1]
      have h2 : ¬ strBegins "System Name:" (pyStripS l) = true := by
        rw [hno l (List.mem_cons_self l rest)]; simp
      rw [if_neg h2]
      by_cases h3 : strBegins "System Description:" (pyStripS l) = true
      · rw [if_pos h3]
        cases hfn : firstNonEmptyStrip rest with
        | some d => exact ih _ sn _ hrest
        | none => exact ih _ sn sd hrest
      · rw [if_neg h3]
        exact ih _ sn sd hrest

theorem lldpScan_desc_const (lines : List String) :
    ∀ (li : Option String) (sn sd : String),
      (∀ l ∈ lines, strBegins "System Description:" (pyStripS l) = false) →
      (lldpScan lines li sn sd).2.2 = sd := by
  induction lines with
  | nil => intro li sn sd _; rfl
  | cons l rest ih =>
    intro li sn sd hno
    rw [lldpScan_cons]
    dsimp only
    have hrest : ∀ m ∈ rest, strBegins "System Description:" (pyStripS m) = false :=
      fun m hm => hno m (List.mem_cons_of_mem l hm)
    by_cases h1 : strBegins "Local Intf:" (pyStripS l) = true
    · rw [if_pos h1]; exact ih _ sn sd hrest
    · rw [if_neg h1]
      by_cases h2 : strBegins "System Name:" (pyStripS l) = true
      · rw [if_pos h2]; exact ih _ _ sd hrest
      · rw [if_neg h2]
        have h3 : ¬ strBegins "System Description:" (pyStripS l) = true := by
          rw [hno l (List.mem_cons_self l rest)]; simp
        rw [if_neg h3]
        exact ih _ sn sd hrest

theorem firstNonEmptyStrip_decomp (rest : List String) :
    ∀ (d : String), firstNonEmptyStrip rest = some d →
      ∃ mid dl post, rest = mid ++ dl :: post ∧ (∀ m ∈ mid, pyStripS m = "") ∧
        pyStripS dl = d ∧ d ≠ "" := by
  induction rest with
  | nil => intro d h; cases h
  | cons l r ih =>
    intro d h
    unfold firstNonEmptyStrip at h
    dsimp only at h
    by_cases hl : pyStripS l ≠ ""
    · rw [if_pos hl] at h
      cases h
      exact ⟨[], l, r, by simp, by simp, rfl, hl⟩
    · rw [if_neg hl] at h
      simp only [ne_eq, not_not] at hl
      obtain ⟨mid, dl, post, hre, hmid, hdl, hd⟩ := ih d h
      refine ⟨l :: mid, dl, post, by simp [hre], ?_, hdl, hd⟩
      intro m hm
      rcases List.mem_cons.mp hm with rfl | hm
      · exact hl
      · exact hmid m hm

theorem DescWitness_cons (l : String) (lines : List String) (d : String)
    (h : DescWitness lines d) : DescWitness (l :: lines) d := by
  obtain ⟨pre, lbl, mid, dl, post, he, hlbl, hmid, hdl, hd⟩ := h
  exact ⟨l :: pre, lbl, mid, dl, post, by simp [he], hlbl, hmid, hdl, hd⟩

theorem lldpScan_desc_source (lines : List String) :
    ∀ (li : Option String) (sn sd : String),
      (lldpScan lines li sn sd).2.2 = sd ∨
        DescWitness lines (lldpScan lines li sn sd).2.2 := by
  induction lines with
  | nil => intro li sn sd; exact Or.inl rfl
  | cons l rest ih =>
    intro li sn sd
    rw [lldpScan_cons]
    dsimp only
    by_cases h1 : strBegins "Local Intf:" (pyStripS l) = true
    · rw [if_pos h1]
      rcases ih (some (valueAfter (pyStripS l) "Local Intf:")) sn sd with h | h
      · exact Or.inl h
      · exact Or.inr (DescWitness_cons l rest _ h)
    · rw [if_neg h1]
      by_cases h2 : strBegins "System Name:" (pyStripS l) = true
      · rw [if_pos h2]
        rcases ih li (valueAfter (pyStripS l) "System Name:") sd with h | h
        · exact Or.inl h
        · exact Or.inr (DescWitness_cons l rest _ h)
      · rw [if_neg h2]
        by_cases h3 : strBegins "System Description:" (pyStripS l) = true
        · rw [if_pos h3]
          cases hfn : firstNonEmptyStrip rest with
          | some d =>
            rcases ih li sn d with h | h
            · obtain ⟨mid, dl, post, hre, hmid, hdl, hd⟩ :=
                firstNonEmptyStrip_decomp rest d hfn
              refine Or.inr ⟨[], l, mid, dl, post, by simp [hre], h3, hmid, ?_, ?_⟩
              · rw [hdl, h]
              · rw [h]; exact hd
            · exact Or.inr (DescWitness_cons l rest _ h)
          | none =>
            rcases ih li sn sd with h | h
            · exact Or.inl h
            · exact Or.inr (DescWitness_cons l rest _ h)
        · rw [if_neg h3]
          rcases ih li sn sd with h | h
          · exact Or.inl h
          · exact Or.inr (DescWitness_cons l rest _ h)

/-- Claim C6 counterexample: a block containing a `Local Intf:` label line
with an empty value yields no record, although a local-interface field was
found in the block — emission is not "exactly when a field was found". -/
theorem C6_lldp_block_emission_counterexample :
    hasLocalIntfLabel "Local Intf:\nSystem Name: AP1" = true ∧
    parse_lldp_neighbors "Local Intf:\nSystem Name: AP1" = [] := by
  decide

/-- Claim C6 (amended): a block yields a record exactly when the value carried
by the last `Local Intf:` label line of the block is non-empty (an
empty-valued label, including one overriding an earlier non-empty one,
suppresses the record); system name and description default to the empty
string when their labels are absent; and a non-empty description always comes
from a strictly later non-empty line following a `System Description:` label
line, with only blank lines in between — never from the label line itself.
The spec's example block parses with name defaulted and the description taken
from the line after the label. -/
theorem C6_lldp_block_emission :
    (∀ b, (parseBlock b).isSome = true ↔ lastLocalIntfVal (blockLines b) ≠ "") ∧
    (∀ b r, parseBlock b = some r →
      ((∀ l ∈ blockLines b, strBegins "System Name:" (pyStripS l) = false) →
        r.system_name = "") ∧
      ((∀ l ∈ blockLines b, strBegins "System Description:" (pyStripS l) = false) →
        r.system_description = "") ∧
      (r.system_description ≠ "" → DescWitness (blockLines b) r.system_description)) ∧
    parseBlock "Local Intf: Gi1/0/24\nSystem Description:\nARISTA AP C-130" =
      some ⟨"Gi1/0/24", "", "ARISTA AP C-130"⟩ := by
  refine ⟨?_, ?_, by decide⟩
  · intro b
    have hrel := lldpScan_localRel (blockLines b) none "" "" "" rfl
    unfold parseBlock
    rcases hscan : lldpScan (blockLines b) none "" "" with ⟨li, sn, sd⟩
    rw [hscan] at hrel
    cases li with
    | none =>
      have : lastLocalIntfVal (blockLines b) = "" := hrel
      simp [this]
    | some v =>
      have hv : v = lastLocalIntfVal (blockLines b) := hrel
      dsimp only
      by_cases hve : v = ""
      · rw [if_neg (by simp [hve])]
        simp [← hv, hve]
      · rw [if_pos (by simp [hve])]
        simp [← hv, hve]
  · intro b r hr
    have hrel := lldpScan_localRel (blockLines b) none "" "" "" rfl
    have hname := lldpScan_name_const (blockLines b) none "" ""
    have hdesc := lldpScan_desc_const (blockLines b) none "" ""
    have hsource := lldpScan_desc_source (blockLines b) none "" ""
    unfold parseBlock at hr
    rcases hscan : lldpScan (blockLines b) none "" "" with ⟨li, sn, sd⟩
    rw [hscan] at hr hname hdesc hsource
    cases li with
    | none => cases hr
    | some v =>
      dsimp only at hr
      by_cases hve : v = ""
      · rw [if_neg (by simp [hve])] at hr
        cases hr
      · rw [if_pos (by simp [hve])] at hr
        cases hr
        refine ⟨fun h => hname h, fun h => hdesc h, fun hne => ?_⟩
        rcases hsource with h | h
        · exact absurd h hne
        · exact h

theorem C6_lldp_block_emission_witness :
    (parseBlock "Local Intf: Gi1/0/24\nSystem Name: X").isSome = true :=
  (C6_lldp_block_emission.1 "Local Intf: Gi1/0/24\nSystem Name: X").mpr (by decide)

/-! ## Claim C3: idempotence analysis of the normalizer -/

theorem takeDigits_sound (l : List Char) :
    (takeDigits l).1 ++ (takeDigits l).2 = l ∧
    (∀ c ∈ (takeDigits l).1, isDigitC c = true) ∧
    (∀ c, (takeDigits l).2.head? = some c → isDigitC c = false) := by
  induction l with
  | nil => exact ⟨rfl, by simp [takeDigits], by simp [takeDigits]⟩
  | cons c cs ih =>
    by_cases hd : isDigitC c = true
    · refine ⟨?_, ?_, ?_⟩
      · simp only [takeDigits, hd, if_true]
        rw [List.cons_append, ih.1]
      · simp only [takeDigits, hd, if_true]
        intro a ha
        rcases List.mem_cons.mp ha with rfl | ha
        · exact hd
        · exact ih.2.1 a ha
      · simp only [takeDigits, hd, if_true]
        exact ih.2.2
    · have hd' : isDigitC c = false := by
        cases h : isDigitC c
        · rfl
        · exact absurd h hd
      refine ⟨?_, ?_, ?_⟩
      · simp [takeDigits, hd']
      · simp [takeDigits, hd']
      · simp only [takeDigits, hd']
        intro a ha
        cases ha
        exact hd'

theorem takeDigits_append (ds r : List Char)
    (hds : ∀ c ∈ ds, isDigitC c = true)
    (hr : ∀ c, r.head? = some c → isDigitC c = false) :
    takeDigits (ds ++ r) = (ds, r) := by
  induction ds with
  | nil =>
    simp only [List.nil_append]
    cases r with
    | nil => rfl
    | cons c cs =>
      have : isDigitC c = false := hr c rfl
      simp [takeDigits, this]
  | cons d ds' ih =>
    have hd : isDigitC d = true := hds d (List.mem_cons_self d ds')
    simp only [List.cons_append, takeDigits, hd, if_true]
    simp only [List.append_eq]
    rw [ih (fun c hc => hds c (List.mem_cons_of_mem d hc))]

theorem slotTailF_nil (f : Nat) : slotTailF f [] = ([], []) := by
  cases f <;> rfl

theorem slotTailF_shape (f : Nat) :
    ∀ l : List Char, TailShape (slotTailF f l).1 ∧
      (slotTailF f l).1 ++ (slotTailF f l).2 = l := by
  induction f with
  | zero => intro l; exact ⟨TailShape.nil, rfl⟩
  | succ f ih =>
    intro l
    cases l with
    | nil => exact ⟨TailShape.nil, rfl⟩
    | cons c rest =>
      by_cases hc : c = '/'
      · subst hc
        have hred : slotTailF (f + 1) ('/' :: rest) =
            (match takeDigits rest with
             | ([], _) => ([], '/' :: rest)
             | (d :: ds, r) =>
               ('/' :: d :: (ds ++ (slotTailF f r).1), (slotTailF f r).2)) := rfl
        rw [hred]
        rcases htd : takeDigits rest with ⟨ds0, r⟩
        cases ds0 with
        | nil => exact ⟨TailShape.nil, rfl⟩
        | cons d ds =>
          dsimp only
          have hsound := takeDigits_sound rest
          rw [htd] at hsound
          obtain ⟨hsplit, hdig, _⟩ := hsound
          have hd : isDigitC d = true := hdig d (List.mem_cons_self d ds)
          have hds : ∀ c2 ∈ ds, isDigitC c2 = true :=
            fun c2 hc2 => hdig c2 (List.mem_cons_of_mem d hc2)
          obtain ⟨hshape, happ⟩ := ih r
          refine ⟨TailShape.cons d ds (slotTailF f r).1 hd hds hshape, ?_⟩
          rw [List.cons_append] at hsplit
          simp only [List.cons_append, List.append_assoc, happ]
          rw [hsplit]
      · simp only [slotTailF, if_neg hc]
        exact ⟨TailShape.nil, rfl⟩

theorem slotTailF_fuel : ∀ (f g : Nat) (l : List Char),
    l.length ≤ f → l.length ≤ g → slotTailF f l = slotTailF g l := by
  intro f
  induction f with
  | zero =>
    intro g l hf _
    have : l = [] := List.eq_nil_of_length_eq_zero (Nat.le_zero.mp hf)
    subst this
    rw [slotTailF_nil, slotTailF_nil]
  | succ f ih =>
    intro g l hf hg
    cases g with
    | zero =>
      have : l = [] := List.eq_nil_of_length_eq_zero (Nat.le_zero.mp hg)
      subst this
      rw [slotTailF_nil, slotTailF_nil]
    | succ g =>
      cases l with
      | nil => rw [slotTailF_nil, slotTailF_nil]
      | cons c rest =>
        by_cases hc : c = '/'
        · subst hc
          have hred1 : slotTailF (f + 1) ('/' :: rest) =
              (match takeDigits rest with
               | ([], _) => ([], '/' :: rest)
               | (d :: ds, r) =>
                 ('/' :: d :: (ds ++ (slotTailF f r).1), (slotTailF f r).2)) := rfl
          have hred2 : slotTailF (g + 1) ('/' :: rest) =
              (match takeDigits rest with
               | ([], _) => ([], '/' :: rest)
               | (d :: ds, r) =>
                 ('/' :: d :: (ds ++ (slotTailF g r).1), (slotTailF g r).2)) := rfl
          rw [hred1, hred2]
          rcases htd : takeDigits rest with ⟨ds0, r⟩
          cases ds0 with
          | nil => rfl
          | cons d ds =>
            dsimp only
            have hsound := takeDigits_sound rest
            rw [htd] at hsound
            have hlen : (d :: ds).length + r.length = rest.length := by
              rw [← hsound.1]
              simp
              omega
            have hr : r.length ≤ f := by
              simp only [List.length_cons] at hf hlen
              omega
            have hrg : r.length ≤ g := by
              simp only [List.length_cons] at hg hlen
              omega
            rw [ih g r hr hrg]
        · have h1 : slotTailF (f + 1) (c :: rest) = ([], c :: rest) := by
            simp [slotTailF, hc]
          have h2 : slotTailF (g + 1) (c :: rest) = ([], c :: rest) := by
            simp [slotTailF, hc]
          rw [h1, h2]

theorem TailShape_head (t : List Char) (h : TailShape t) :
    ∀ c, t.head? = some c → isDigitC c = false := by
  cases h with
  | nil => intro c hc; cases hc
  | cons d ds rest hd hds ht =>
    intro c hc
    cases hc
    decide

theorem TailShape_mem (t : List Char) (h : TailShape t) :
    ∀ c ∈ t, isDigitC c = true ∨ c = '/' := by
  induction h with
  | nil => intro c hc; cases hc
  | cons d ds rest hd hds ht ih =>
    intro c hc
    rcases List.mem_cons.mp hc with rfl | hc
    · exact Or.inr rfl
    · rcases List.mem_cons.mp hc with rfl | hc
      · exact Or.inl hd
      · rcases List.mem_append.mp hc with hc | hc
        · exact Or.inl (hds c hc)
        · exact ih c hc

theorem TailShape_full (t : List Char) (h : TailShape t) :
    ∀ f, t.length ≤ f → slotTailF f t = (t, []) := by
  induction h with
  | nil => intro f _; exact slotTailF_nil f
  | cons d ds rest hd hds ht ih =>
    intro f hf
    cases f with
    | zero => simp at hf
    | succ f =>
      have hred : slotTailF (f + 1) ('/' :: d :: (ds ++ rest)) =
          (match takeDigits (d :: (ds ++ rest)) with
           | ([], _) => ([], '/' :: d :: (ds ++ rest))
           | (d2 :: ds2, r) =>
             ('/' :: d2 :: (ds2 ++ (slotTailF f r).1), (slotTailF f r).2)) := rfl
      rw [hred]
      have htd : takeDigits (d :: (ds ++ rest)) = (d :: ds, rest) := by
        have : d :: (ds ++ rest) = (d :: ds) ++ rest := by simp
        rw [this]
        exact takeDigits_append (d :: ds) rest
          (fun c hc => by
            rcases List.mem_cons.mp hc with rfl | hc
            · exact hd
            · exact hds c hc)
          (TailShape_head rest ht)
      rw [htd]
      dsimp only
      have hrest : rest.length ≤ f := by
        simp only [List.length_cons, List.length_append] at hf
        omega
      rw [ih f hrest]

theorem searchDigitRun_append_nodigit (p : List Char) :
    ∀ l : List Char, (∀ c ∈ p, isDigitC c = false) →
      searchDigitRun (p ++ l) = searchDigitRun l := by
  induction p with
  | nil => intro l _; rfl
  | cons c cs ih =>
    intro l h
    have hc : isDigitC c = false := h c (List.mem_cons_self c cs)
    simp only [List.cons_append, searchDigitRun, hc]
    simp only [Bool.false_eq_true, if_false]
    exact ih l (fun c2 hc2 => h c2 (List.mem_cons_of_mem c hc2))

theorem searchDigitRun_shape :
    ∀ (l nums : List Char), searchDigitRun l = some nums → RunShape nums := by
  intro l
  induction l with
  | nil => intro nums h; cases h
  | cons c cs ih =>
    intro nums h
    by_cases hc : isDigitC c = true
    · simp only [searchDigitRun, hc, if_true] at h
      have hred : takeDigits (c :: cs) = (c :: (takeDigits cs).1, (takeDigits cs).2) := by
        simp [takeDigits, hc]
      rw [hred] at h
      dsimp only at h
      cases h
      have hsound := takeDigits_sound cs
      obtain ⟨hshape, _⟩ := slotTailF_shape ((takeDigits cs).2.length) ((takeDigits cs).2)
      exact ⟨c, (takeDigits cs).1, (slotTailF (takeDigits cs).2.length (takeDigits cs).2).1,
        by simp, hc, hsound.2.1, hshape⟩
    · have hc' : isDigitC c = false := by
        cases hcc : isDigitC c
        · rfl
        · exact absurd hcc hc
      simp only [searchDigitRun, hc'] at h
      simp only [Bool.false_eq_true, if_false] at h
      exact ih nums h

theorem searchDigitRun_full (nums : List Char) (h : RunShape nums) :
    searchDigitRun nums = some nums := by
  obtain ⟨d, ds, tail, rfl, hd, hds, ht⟩ := h
  simp only [searchDigitRun, hd, if_true]
  have htd : takeDigits (d :: (ds ++ tail)) = (d :: ds, tail) := by
    have : d :: (ds ++ tail) = (d :: ds) ++ tail := by simp
    rw [this]
    exact takeDigits_append (d :: ds) tail
      (fun c hc => by
        rcases List.mem_cons.mp hc with rfl | hc
        · exact hd
        · exact hds c hc)
      (TailShape_head tail ht)
  rw [htd]
  dsimp only
  rw [TailShape_full tail ht tail.length (Nat.le_refl _)]
  simp

theorem RunShape_mem (nums : List Char) (h : RunShape nums) :
    ∀ c ∈ nums, isDigitC c = true ∨ c = '/' := by
  obtain ⟨d, ds, tail, rfl, hd, hds, ht⟩ := h
  intro c hc
  rcases List.mem_cons.mp hc with rfl | hc
  · exact Or.inl hd
  · rcases List.mem_append.mp hc with hc | hc
    · exact Or.inl (hds c hc)
    · exact TailShape_mem tail ht c hc

theorem isDigitC_mem (c : Char) (h : isDigitC c = true) : c ∈ digitChars := by
  simpa [isDigitC] using h

theorem digit_not_space (c : Char) (h : isDigitC c = true) : pyIsSpace c = false := by
  have hm := isDigitC_mem c h
  fin_cases hm <;> decide

theorem digit_toLower (c : Char) (h : isDigitC c = true) : Char.toLower c = c := by
  have hm := isDigitC_mem c h
  fin_cases hm <;> decide

theorem run_char_not_space (c : Char) (h : isDigitC c = true ∨ c = '/') :
    pyIsSpace c = false := by
  rcases h with h | rfl
  · exact digit_not_space c h
  · decide

theorem run_char_toLower (c : Char) (h : isDigitC c = true ∨ c = '/') :
    Char.toLower c = c := by
  rcases h with h | rfl
  · exact digit_toLower c h
  · decide

theorem dropWhile_eq_self_all (p : Char → Bool) :
    ∀ l : List Char, (∀ c ∈ l, p c = false) → l.dropWhile p = l := by
  intro l h
  induction l with
  | nil => rfl
  | cons c cs ih =>
    rw [List.dropWhile_cons, h c (List.mem_cons_self c cs)]
    simp

theorem stripL_eq_self (l : List Char) (h : ∀ c ∈ l, pyIsSpace c = false) :
    stripL l = l := by
  unfold stripL dropTrailing
  rw [dropWhile_eq_self_all pyIsSpace l h]
  rw [dropWhile_eq_self_all pyIsSpace l.reverse
    (fun c hc => h c (List.mem_reverse.mp hc))]
  simp

theorem dropWhile_head_prop (p : Char → Bool) :
    ∀ l : List Char, ∀ c, (l.dropWhile p).head? = some c → p c = false := by
  intro l
  induction l with
  | nil => intro c hc; cases hc
  | cons a l' ih =>
    intro c hc
    rw [List.dropWhile_cons] at hc
    by_cases hp : p a = true
    · rw [if_pos hp] at hc
      exact ih c hc
    · have hp' : p a = false := by
        cases hq : p a
        · rfl
        · exact absurd hq hp
      rw [hp'] at hc
      simp only [Bool.false_eq_true, if_false, List.head?_cons, Option.some.injEq] at hc
      subst hc
      exact hp'

theorem dropWhile_eq_self_of_head (p : Char → Bool) (l : List Char)
    (h : ∀ c, l.head? = some c → p c = false) : l.dropWhile p = l := by
  cases l with
  | nil => rfl
  | cons c cs =>
    rw [List.dropWhile_cons, h c rfl]
    simp

theorem stripL_idem (l : List Char) : stripL (stripL l) = stripL l := by
  have hsplit : l.dropWhile pyIsSpace =
      stripL l ++ ((l.dropWhile pyIsSpace).reverse.takeWhile pyIsSpace).reverse := by
    unfold stripL dropTrailing
    have := List.takeWhile_append_dropWhile
      (p := pyIsSpace) (l := (l.dropWhile pyIsSpace).reverse)
    calc l.dropWhile pyIsSpace
        = (l.dropWhile pyIsSpace).reverse.reverse := by simp
      _ = ((l.dropWhile pyIsSpace).reverse.takeWhile pyIsSpace ++
            (l.dropWhile pyIsSpace).reverse.dropWhile pyIsSpace).reverse := by rw [this]
      _ = _ := by
            rw [List.reverse_append]
  have hhead : ∀ c, (stripL l).head? = some c → pyIsSpace c = false := by
    intro c hc
    cases hsl : stripL l with
    | nil => rw [hsl] at hc; cases hc
    | cons a s' =>
      rw [hsl] at hc
      cases hc
      have : (l.dropWhile pyIsSpace).head? = some c := by
        rw [hsplit, hsl]
        rfl
      exact dropWhile_head_prop pyIsSpace l c this
  have hlast : ∀ c, (stripL l).reverse.head? = some c → pyIsSpace c = false := by
    intro c hc
    unfold stripL dropTrailing at hc
    rw [List.reverse_reverse] at hc
    exact dropWhile_head_prop pyIsSpace (l.dropWhile pyIsSpace).reverse c hc
  have hclean : ∀ (m : List Char),
      (∀ c, m.head? = some c → pyIsSpace c = false) →
      (∀ c, m.reverse.head? = some c → pyIsSpace c = false) →
      stripL m = m := by
    intro m hh hl
    unfold stripL dropTrailing
    rw [dropWhile_eq_self_of_head pyIsSpace m hh,
      dropWhile_eq_self_of_head pyIsSpace m.reverse hl]
    simp
  exact hclean (stripL l) hhead hlast

theorem beginsWith_append_left (p : List Char) :
    ∀ (a r : List Char), beginsWith p a = true → beginsWith p (a ++ r) = true := by
  induction p with
  | nil => intro a r _; rfl
  | cons q ps ih =>
    intro a r h
    cases a with
    | nil => cases h
    | cons c a' =>
      simp only [beginsWith] at h
      by_cases hq : q = c
      · rw [List.cons_append]
        simp only [beginsWith]
        rw [if_pos hq]
        rw [if_pos hq] at h
        exact ih a' r h
      · rw [if_neg hq] at h
        cases h

theorem containsSub_of_begins (p l : List Char) (h : beginsWith p l = true) :
    containsSub p l = true := by
  cases l with
  | nil => exact h
  | cons c cs => simp [containsSub, h]

theorem beginsWith_split (p : List Char) :
    ∀ (a b : List Char), beginsWith p (a ++ b) = true →
      beginsWith p a = true ∨ ∃ c ∈ p, c ∈ b := by
  induction p with
  | nil => intro a b _; exact Or.inl rfl
  | cons q ps ih =>
    intro a b h
    cases a with
    | nil =>
      refine Or.inr ⟨q, List.mem_cons_self q ps, ?_⟩
      cases b with
      | nil => cases h
      | cons c cs =>
        simp only [List.nil_append, beginsWith] at h
        by_cases hq : q = c
        · subst hq; exact List.mem_cons_self q cs
        · rw [if_neg hq] at h; cases h
    | cons c a' =>
      rw [List.cons_append] at h
      simp only [beginsWith] at h
      by_cases hq : q = c
      · rw [if_pos hq] at h
        rcases ih a' b h with h1 | ⟨c2, hc2, hcb⟩
        · refine Or.inl ?_
          simp only [beginsWith]
          rw [if_pos hq]
          exact h1
        · exact Or.inr ⟨c2, List.mem_cons_of_mem q hc2, hcb⟩
      · rw [if_neg hq] at h
        cases h

theorem containsSub_head_mem (q : Char) (ps : List Char) :
    ∀ l : List Char, containsSub (q :: ps) l = true → q ∈ l := by
  intro l
  induction l with
  | nil => intro h; cases h
  | cons c cs ih =>
    intro h
    simp only [containsSub, Bool.or_eq_true] at h
    rcases h with h | h
    · simp only [beginsWith] at h
      by_cases hq : q = c
      · subst hq; exact List.mem_cons_self q cs
      · rw [if_neg hq] at h; cases h
    · exact List.mem_cons_of_mem c (ih h)

theorem containsSub_append_cases (p : List Char) :
    ∀ (a b : List Char), containsSub p (a ++ b) = true →
      containsSub p a = true ∨ ∃ c ∈ p, c ∈ b := by
  intro a
  induction a with
  | nil =>
    intro b h
    cases p with
    | nil => exact Or.inl rfl
    | cons q ps =>
      exact Or.inr ⟨q, List.mem_cons_self q ps, containsSub_head_mem q ps b h⟩
  | cons c a' ih =>
    intro b h
    rw [List.cons_append] at h
    simp only [containsSub, Bool.or_eq_true] at h
    rcases h with h | h
    · rw [← List.cons_append] at h
      rcases beginsWith_split p (c :: a') b h with h1 | h1
      · exact Or.inl (containsSub_of_begins p (c :: a') h1)
      · exact Or.inr h1
    · rcases ih b h with h1 | h1
      · refine Or.inl ?_
        simp [containsSub, h1]
      · exact Or.inr h1

theorem map_self_of (f : Char → Char) :
    ∀ l : List Char, (∀ c ∈ l, f c = c) → l.map f = l := by
  intro l h
  induction l with
  | nil => rfl
  | cons c cs ih =>
    rw [List.map_cons, h c (List.mem_cons_self c cs),
      ih (fun c2 hc2 => h c2 (List.mem_cons_of_mem c hc2))]

theorem no_needle_in_run (needle pre nums : List Char)
    (hpre : containsSub needle pre = false)
    (hchars : ∀ c ∈ needle, isDigitC c = false ∧ c ≠ '/')
    (hnums : ∀ c ∈ nums, isDigitC c = true ∨ c = '/') :
    containsSub needle (pre ++ nums) = false := by
  by_contra h
  simp only [Bool.not_eq_false] at h
  rcases containsSub_append_cases needle pre nums h with h1 | ⟨c, hc, hcn⟩
  · rw [hpre] at h1; cases h1
  · rcases hnums c hcn with hd | rfl
    · exact absurd hd (by simp [(hchars c hc).1])
    · exact absurd rfl (hchars _ hc).2

theorem beginsWith_false_of_head (q : Char) (ps : List Char) (c : Char)
    (r : List Char) (h : q ≠ c) : beginsWith (q :: ps) (c :: r) = false := by
  simp only [beginsWith]
  rw [if_neg h]

theorem strOfL_toList (l : List Char) : (strOfL l).toList = l := rfl

theorem ne_true_of_false {b : Bool} (h : b = false) : ¬ b = true := by
  intro hb
  rw [h] at hb
  cases hb

theorem strOfL_ne_empty (l : List Char) (h : l ≠ []) : strOfL l ≠ "" := by
  intro he
  apply h
  have h2 := congrArg String.toList he
  simpa using h2

theorem normalize_fixed_of_run (P nums : List Char)
    (hPns : ∀ c ∈ P, pyIsSpace c = false)
    (hPnd : ∀ c ∈ P, isDigitC c = false)
    (hshape : RunShape nums) :
    stripL (P ++ nums) = P ++ nums ∧ searchDigitRun (P ++ nums) = some nums := by
  constructor
  · apply stripL_eq_self
    intro c hc
    rcases List.mem_append.mp hc with h | h
    · exact hPns c h
    · exact run_char_not_space c (RunShape_mem nums hshape c h)
  · rw [searchDigitRun_append_nodigit P nums hPnd]
    exact searchDigitRun_full nums hshape

theorem normalize_gig_fixed (nums : List Char) (hshape : RunShape nums) :
    normalize_interface_name (strOfL ("GigabitEthernet".toList ++ nums)) =
      strOfL ("GigabitEthernet".toList ++ nums) := by
  obtain ⟨hstrip, hsearch⟩ := normalize_fixed_of_run "GigabitEthernet".toList nums
    (by decide) (by decide) hshape
  have hne : strOfL ("GigabitEthernet".toList ++ nums) ≠ "" := by
    apply strOfL_ne_empty
    simp
  unfold normalize_interface_name
  rw [if_neg hne]
  dsimp only
  rw [strOfL_toList, hstrip, hsearch]
  dsimp only
  have hcond : (containsSub "gig".toList (lowerL ("GigabitEthernet".toList ++ nums)) ||
      beginsWith "gi".toList (lowerL ("GigabitEthernet".toList ++ nums))) = true := by
    have hmap : lowerL ("GigabitEthernet".toList ++ nums) =
        lowerL "GigabitEthernet".toList ++ lowerL nums := by
      unfold lowerL
      exact List.map_append _ _ _
    rw [hmap]
    have hcs : containsSub "gig".toList
        (lowerL "GigabitEthernet".toList ++ lowerL nums) = true := by
      apply containsSub_of_begins
      apply beginsWith_append_left
      decide
    rw [hcs]
    rfl
  rw [if_pos hcond]

theorem normalize_fast_fixed (nums : List Char) (hshape : RunShape nums) :
    normalize_interface_name (strOfL ("FastEthernet".toList ++ nums)) =
      strOfL ("FastEthernet".toList ++ nums) := by
  obtain ⟨hstrip, hsearch⟩ := normalize_fixed_of_run "FastEthernet".toList nums
    (by decide) (by decide) hshape
  have hne : strOfL ("FastEthernet".toList ++ nums) ≠ "" := by
    apply strOfL_ne_empty
    simp
  have hnums := RunShape_mem nums hshape
  have hlow : lowerL ("FastEthernet".toList ++ nums) = "fastethernet".toList ++ nums := by
    unfold lowerL
    rw [List.map_append]
    have h1 : "FastEthernet".toList.map Char.toLower = "fastethernet".toList := by decide
    have h2 : nums.map Char.toLower = nums :=
      map_self_of Char.toLower nums (fun c hc => run_char_toLower c (hnums c hc))
    rw [h1, h2]
  have hexpose : ("fastethernet".toList ++ nums : List Char) =
      'f' :: ("astethernet".toList ++ nums) := rfl
  have hgig : (containsSub "gig".toList (lowerL ("FastEthernet".toList ++ nums)) ||
      beginsWith "gi".toList (lowerL ("FastEthernet".toList ++ nums))) = false := by
    rw [hlow]
    have hc1 : containsSub "gig".toList ("fastethernet".toList ++ nums) = false :=
      no_needle_in_run _ _ _ (by decide) (by decide) hnums
    have hc2 : beginsWith "gi".toList ("fastethernet".toList ++ nums) = false := by
      rw [hexpose]
      exact beginsWith_false_of_head 'g' ['i'] 'f' _ (by decide)
    rw [hc1, hc2]
    rfl
  have hten : (containsSub "ten".toList (lowerL ("FastEthernet".toList ++ nums)) ||
      beginsWith "te".toList (lowerL ("FastEthernet".toList ++ nums))) = false := by
    rw [hlow]
    have hc1 : containsSub "ten".toList ("fastethernet".toList ++ nums) = false :=
      no_needle_in_run _ _ _ (by decide) (by decide) hnums
    have hc2 : beginsWith "te".toList ("fastethernet".toList ++ nums) = false := by
      rw [hexpose]
      exact beginsWith_false_of_head 't' ['e'] 'f' _ (by decide)
    rw [hc1, hc2]
    rfl
  have hfast : (containsSub "fast".toList (lowerL ("FastEthernet".toList ++ nums)) ||
      beginsWith "fa".toList (lowerL ("FastEthernet".toList ++ nums))) = true := by
    rw [hlow]
    have hcs : containsSub "fast".toList ("fastethernet".toList ++ nums) = true := by
      apply containsSub_of_begins
      apply beginsWith_append_left
      decide
    rw [hcs]
    rfl
  unfold normalize_interface_name
  rw [if_neg hne]
  dsimp only
  rw [strOfL_toList, hstrip, hsearch]
  dsimp only
  rw [if_neg (ne_true_of_false hgig), if_neg (ne_true_of_false hten), if_pos hfast]

theorem normalize_stripped_fixed_nodigit (t : List Char)
    (hstrip : stripL t = t) (hs : searchDigitRun t = none) :
    normalize_interface_name (strOfL t) = strOfL t := by
  by_cases hte : t = []
  · subst hte; rfl
  · unfold normalize_interface_name
    rw [if_neg (strOfL_ne_empty t hte)]
    dsimp only
    rw [strOfL_toList, hstrip, hs]

theorem normalize_stripped_fixed_fallback (t nums : List Char)
    (hstrip : stripL t = t) (hs : searchDigitRun t = some nums)
    (h1 : ¬ (containsSub "gig".toList (lowerL t) ||
        beginsWith "gi".toList (lowerL t)) = true)
    (h2 : ¬ (containsSub "ten".toList (lowerL t) ||
        beginsWith "te".toList (lowerL t)) = true)
    (h3 : ¬ (containsSub "fast".toList (lowerL t) ||
        beginsWith "fa".toList (lowerL t)) = true) :
    normalize_interface_name (strOfL t) = strOfL t := by
  have hte : t ≠ [] := by
    intro h
    subst h
    simp [searchDigitRun] at hs
  unfold normalize_interface_name
  rw [if_neg (strOfL_ne_empty t hte)]
  dsimp only
  rw [strOfL_toList, hstrip, hs]
  dsimp only
  rw [if_neg h1, if_neg h2, if_neg h3]

/-- Claim C3 counterexample: `"Te2/1"` contains a recognized prefix cue and a
digit-slot path — it normalizes to the long form `TenGigabitEthernet2/1` —
yet a second application yields `GigabitEthernet2/1` (the lowered form
`tengigabitethernet2/1` contains the substring `gig`, which has precedence),
so `normalize(normalize(x)) ≠ normalize(x)`. -/
theorem C3_normalize_idempotent_counterexample :
    normalize_interface_name "Te2/1" = "TenGigabitEthernet2/1" ∧
    normalize_interface_name (normalize_interface_name "Te2/1") =
      "GigabitEthernet2/1" ∧
    normalize_interface_name (normalize_interface_name "Te2/1") ≠
      normalize_interface_name "Te2/1" := by
  decide

/-- Claim C3 (amended): `normalize` is idempotent on every token whose
normalization yields the `GigabitEthernet` or `FastEthernet` long form;
tokens normalizing to `TenGigabitEthernet` are renormalized to
`GigabitEthernet` (the `gig` substring rule fires), so idempotence fails
exactly there.  The two already-canonical inputs named by the claim do
satisfy `normalize(normalize(x)) = normalize(x)`: `FastEthernet0/3` is a
fixed point, and `TenGigabitEthernet2/1` is mapped by its first application
to `GigabitEthernet2/1`, which is a fixed point. -/
theorem C3_normalize_idempotent :
    (∀ x, (strBegins "GigabitEthernet" (normalize_interface_name x) = true ∨
           strBegins "FastEthernet" (normalize_interface_name x) = true) →
      normalize_interface_name (normalize_interface_name x) =
        normalize_interface_name x) ∧
    normalize_interface_name (normalize_interface_name "TenGigabitEthernet2/1") =
      normalize_interface_name "TenGigabitEthernet2/1" ∧
    normalize_interface_name (normalize_interface_name "FastEthernet0/3") =
      normalize_interface_name "FastEthernet0/3" := by
  refine ⟨?_, by decide, by decide⟩
  intro x hx
  by_cases hxe : x = ""
  · subst hxe
    rcases hx with h | h <;> exact absurd h (by decide)
  · cases hs : searchDigitRun (stripL x.toList) with
    | none =>
      have hy : normalize_interface_name x = strOfL (stripL x.toList) := by
        unfold normalize_interface_name
        rw [if_neg hxe]
        dsimp only
        rw [hs]
      rw [hy]
      exact normalize_stripped_fixed_nodigit (stripL x.toList) (stripL_idem x.toList) hs
    | some nums =>
      have hshape := searchDigitRun_shape (stripL x.toList) nums hs
      by_cases c1 : (containsSub "gig".toList (lowerL (stripL x.toList)) ||
          beginsWith "gi".toList (lowerL (stripL x.toList))) = true
      · have hy : normalize_interface_name x =
            strOfL ("GigabitEthernet".toList ++ nums) := by
          unfold normalize_interface_name
          rw [if_neg hxe]
          dsimp only
          rw [hs]
          dsimp only
          rw [if_pos c1]
        rw [hy]
        exact normalize_gig_fixed nums hshape
      · by_cases c2 : (containsSub "ten".toList (lowerL (stripL x.toList)) ||
            beginsWith "te".toList (lowerL (stripL x.toList))) = true
        · have hy : normalize_interface_name x =
              strOfL ("TenGigabitEthernet".toList ++ nums) := by
            unfold normalize_interface_name
            rw [if_neg hxe]
            dsimp only
            rw [hs]
            dsimp only
            rw [if_neg c1, if_pos c2]
          rw [hy] at hx
          have hT : ("TenGigabitEthernet".toList ++ nums : List Char) =
              'T' :: ("enGigabitEthernet".toList ++ nums) := rfl
          rcases hx with h | h
          · have hfalse : strBegins "GigabitEthernet"
                (strOfL ("TenGigabitEthernet".toList ++ nums)) = false := by
              unfold strBegins
              rw [strOfL_toList, hT]
              exact beginsWith_false_of_head 'G' _ 'T' _ (by decide)
            rw [hfalse] at h
            cases h
          · have hfalse : strBegins "FastEthernet"
                (strOfL ("TenGigabitEthernet".toList ++ nums)) = false := by
              unfold strBegins
              rw [strOfL_toList, hT]
              exact beginsWith_false_of_head 'F' _ 'T' _ (by decide)
            rw [hfalse] at h
            cases h
        · by_cases c3 : (containsSub "fast".toList (lowerL (stripL x.toList)) ||
              beginsWith "fa".toList (lowerL (stripL x.toList))) = true
          · have hy : normalize_interface_name x =
                strOfL ("FastEthernet".toList ++ nums) := by
              unfold normalize_interface_name
              rw [if_neg hxe]
              dsimp only
              rw [hs]
              dsimp only
              rw [if_neg c1, if_neg c2, if_pos c3]
            rw [hy]
            exact normalize_fast_fixed nums hshape
          · have hy : normalize_interface_name x = strOfL (stripL x.toList) := by
              unfold normalize_interface_name
              rw [if_neg hxe]
              dsimp only
              rw [hs]
              dsimp only
              rw [if_neg c1, if_neg c2, if_neg c3]
            rw [hy]
            exact normalize_stripped_fixed_fallback (stripL x.toList) nums
              (stripL_idem x.toList) hs c1 c2 c3

theorem C3_normalize_idempotent_witness :
    normalize_interface_name (normalize_interface_name "Gi1/0/38") =
      normalize_interface_name "Gi1/0/38" :=
  C3_normalize_idempotent.1 "Gi1/0/38" (Or.inl (by decide))
